import Mathlib

/-!
Verification development for the Inkwell client-side RAG / streaming
tool-call core.  The definitions below are a shallow embedding of the
TypeScript source: `src/utils/textChunker.ts` (chunker),
`src/utils/documentTools.ts` (tool executor), and the `useOllama` hook
(retrieval, planner, and the agentic streaming extractor).  JavaScript
strings are modelled as Lean `String` / `List Char` (code points);
JavaScript's dynamic values that cross the JSON boundary are modelled by
the `Json` inductive below.
-/

/-- ASCII whitespace set used to model JavaScript's `trim` and the regex
class `\s` (the non-ASCII members of those sets never occur in the
strings this development manipulates). -/
def isWsChar (c : Char) : Bool :=
  c = ' ' || c = '\t' || c = '\n' || c = '\r' || c = '\x0b' || c = '\x0c'

/-- Does the character list `l` start with `pat`?  Models matching a
literal pattern at one fixed position. -/
def headMatches : List Char → List Char → Bool
  | _, [] => true
  | [], _ :: _ => false
  | c :: cs, p :: ps => c == p && headMatches cs ps

/-- Lower-casing of one character: ASCII letters plus the Turkish
letters that occur in the general-query pattern list of
`findRelevantChunks` (models `String.prototype.toLowerCase` on the
alphabet this code base uses). -/
def lowerChar (c : Char) : Char :=
  if 'A' ≤ c ∧ c ≤ 'Z' then Char.ofNat (c.toNat + 32)
  else if c = 'Ö' then 'ö'
  else if c = 'Ü' then 'ü'
  else if c = 'Ç' then 'ç'
  else if c = 'Ğ' then 'ğ'
  else if c = 'Ş' then 'ş'
  else c

/-- Case-insensitive `headMatches` (models a regex `i` flag). -/
def headMatchesCI (l pat : List Char) : Bool :=
  headMatches (l.map lowerChar) (pat.map lowerChar)

/-- Try `f` on every suffix of the input, left to right; models the
leftmost-match search of a regex engine over start positions. -/
def scanSuffixes {α : Type} (f : List Char → Option α) : List Char → Option α
  | [] => f []
  | c :: t =>
    match f (c :: t) with
    | some r => some r
    | none => scanSuffixes f t

/-- Substring test (models `String.prototype.includes`). -/
def inclL (l pat : List Char) : Bool :=
  (scanSuffixes (fun u => if headMatches u pat then some () else none) l).isSome

/-- `String.prototype.includes`. -/
def incl (s pat : String) : Bool := inclL s.toList pat.toList

/-- Number of start offsets at which `pat` occurs in `l` (used only by
the spec-worded occurrence-counting score, see `keywordScoreSpec`). -/
def occCount (l pat : List Char) : Nat :=
  ((List.range (l.length + 1)).filter (fun i => headMatches (l.drop i) pat)).length

/-- Drop whitespace from the front. -/
def trimLeftL (l : List Char) : List Char := l.dropWhile isWsChar

/-- JavaScript `String.prototype.trim`. -/
def trimL (l : List Char) : List Char :=
  ((trimLeftL l).reverse.dropWhile isWsChar).reverse

/-- JavaScript `String.prototype.trim` on `String`. -/
def jsTrim (s : String) : String := String.mk (trimL s.toList)

/-- JavaScript `String.prototype.toLowerCase` (on this code base's
alphabet). -/
def jsLower (s : String) : String := String.mk (s.toList.map lowerChar)

/-- `String.prototype.startsWith`. -/
def startsW (s pat : String) : Bool := headMatches s.toList pat.toList

/-- `String.prototype.split('\n')` (literal separator, all parts kept,
including empty ones). -/
def splitNl : List Char → List (List Char)
  | [] => [[]]
  | c :: t =>
    match splitNl t with
    | h :: rt => if c = '\n' then [] :: h :: rt else (c :: h) :: rt
    | [] => [[c]]

/-- Fuel-driven global literal replacement, leftmost first,
non-overlapping (models `String.prototype.replace` with a `g`-flagged
literal pattern).  The fuel is the length of the subject, which is
enough because each step consumes at least one character. -/
def replFuel (pat rep : List Char) : Nat → List Char → List Char
  | 0, l => l
  | _ + 1, [] => []
  | f + 1, c :: t =>
    if pat ≠ [] ∧ headMatches (c :: t) pat then
      rep ++ replFuel pat rep f ((c :: t).drop pat.length)
    else
      c :: replFuel pat rep f t

/-- Global literal replacement on `String` (models
`s.replace(/pat/g, rep)` for a literal `pat`). -/
def replAll (s pat rep : String) : String :=
  String.mk (replFuel pat.toList rep.toList s.toList.length s.toList)

/-- JavaScript `Array.prototype.lastIndexOf`-style search used by the
chunker: last index `≤ fromIdx` at which character `c` occurs, `-1` if
none.  A negative `fromIdx` is clamped to `0`, one past the end to the
last index, exactly as `String.prototype.lastIndexOf` clamps. -/
def jsLastIndexOf (l : List Char) (c : Char) (fromIdx : Int) : Int :=
  if l.isEmpty then -1
  else
    let f : Int := max 0 (min fromIdx ((l.length : Int) - 1))
    let upTo := l.take (f.toNat + 1)
    (upTo.foldl (fun (acc : Int × Int) ch =>
      (if ch = c then acc.2 else acc.1, acc.2 + 1)) (-1, 0)).1

/-- JavaScript `String.prototype.slice` with signed, clamped indices. -/
def jsSlice (l : List Char) (s e : Int) : List Char :=
  let n : Int := l.length
  let s' : Int := if s < 0 then max 0 (n + s) else min s n
  let e' : Int := if e < 0 then max 0 (n + e) else min e n
  if s' < e' then (l.take e'.toNat).drop s'.toNat else []

/-- Collapse runs of whitespace to single spaces (first half of the
chunker's `text.replace(/\s+/g, ' ')`): map every whitespace character
to a space, then squeeze runs of spaces. -/
def squeezeSpaces : List Char → List Char
  | [] => []
  | [c] => [c]
  | a :: b :: t =>
    if a = ' ' ∧ b = ' ' then squeezeSpaces (b :: t)
    else a :: squeezeSpaces (b :: t)

/-- The chunker's text normalisation:
`text.replace(/\s+/g, ' ').trim()`. -/
def normalizeWs (l : List Char) : List Char :=
  trimL (squeezeSpaces (l.map (fun c => if isWsChar c then ' ' else c)))

/-!
## JSON values (JavaScript values that cross the `JSON.parse` boundary)
-/

/-- A JSON value as produced by `JSON.parse`.  Numbers are modelled as
rationals (every JSON numeral denotes a rational; float rounding never
matters for the properties proved here). -/
inductive Json where
  | null
  | bool (b : Bool)
  | num (q : Rat)
  | str (s : String)
  | arr (elts : List Json)
  | obj (fields : List (String × Json))

/-- Property lookup `v.k` on a parsed value.  On an object with
duplicate keys `JSON.parse` keeps the last occurrence, so the last
binding wins; property access on any non-object JSON value yields
JavaScript `undefined`, modelled as `none` (the call sites guard the
`null` case with `&&`, so the `null` `TypeError` is unreachable). -/
def Json.getField : Json → String → Option Json
  | .obj fs, k => ((fs.filter (fun p => p.1 == k)).getLast?).map (fun p => p.2)
  | _, _ => none

/-- JavaScript truthiness of a parsed JSON value. -/
def Json.truthy : Json → Bool
  | .null => false
  | .bool b => b
  | .num q => decide (q ≠ 0)
  | .str s => !s.isEmpty
  | .arr _ => true
  | .obj _ => true

/-- Keep a JavaScript value only if it is truthy: models the guard
pattern `a && a.f`, and the left operand of `||`. -/
def optTruthy (o : Option Json) : Option Json :=
  match o with
  | some v => if v.truthy then some v else none
  | none => none

/-- JavaScript `a || b` on possibly-undefined JSON values. -/
def jsOrVal (a b : Option Json) : Option Json :=
  match optTruthy a with
  | some v => some v
  | none => b

/-- Rendering of a parsed number inside a template literal.  JavaScript
prints integers without a fraction; the non-integer fallback prints
`num/den` (the exact shortest-float rendering is irrelevant here: every
number interpolated into a message in the claims is an integer). -/
def ratDisplay (q : Rat) : String :=
  if q.den = 1 then toString q.num else toString q.num ++ "/" ++ toString q.den

mutual

/-- Interpolation of a JavaScript value into a template literal (used
for `params.title`, `params.paragraph_number`, and the final tool
name).  An array prints as its comma-joined elements, an object as
`[object Object]`. -/
def Json.display : Json → String
  | .null => "null"
  | .bool true => "true"
  | .bool false => "false"
  | .num q => ratDisplay q
  | .str s => s
  | .arr elts => String.intercalate "," (Json.displayList elts)
  | .obj _ => "[object Object]"

/-- Elementwise `Json.display` (structural companion to `Json.display`). -/
def Json.displayList : List Json → List String
  | [] => []
  | j :: t => Json.display j :: Json.displayList t

end

/-- Interpolation of an optional value (`undefined` = `none`). -/
def jsTemplate (o : Option Json) : String :=
  match o with
  | some v => v.display
  | none => "undefined"

/-!
## A model of `JSON.parse`

Recursive-descent parser over `List Char` with explicit fuel (twice the
input length is always sufficient: every unit of fuel spent corresponds
to at least one character of input consumed, counting separators).
Mirrors strict JSON: no trailing garbage, no control characters in
strings, `\uXXXX` escapes (a surrogate code unit, which is not a valid
Lean `Char`, degrades to `Char.ofNat`'s default — no claim exercises
surrogates).
-/

/-- JSON insignificant whitespace. -/
def skipJWs (l : List Char) : List Char :=
  l.dropWhile (fun c => c = ' ' || c = '\t' || c = '\n' || c = '\r')

/-- Hex digit value. -/
def hexVal (c : Char) : Option Nat :=
  if '0' ≤ c ∧ c ≤ '9' then some (c.toNat - '0'.toNat)
  else if 'a' ≤ c ∧ c ≤ 'f' then some (c.toNat - 'a'.toNat + 10)
  else if 'A' ≤ c ∧ c ≤ 'F' then some (c.toNat - 'A'.toNat + 10)
  else none

/-- Four hex digits. -/
def parseHex4 : List Char → Option (Nat × List Char)
  | a :: b :: c :: d :: t =>
    match hexVal a, hexVal b, hexVal c, hexVal d with
    | some x, some y, some z, some w => some ((((x * 16 + y) * 16 + z) * 16 + w), t)
    | _, _, _, _ => none
  | _ => none

/-- Single-character string escapes. -/
def escChar (c : Char) : Option Char :=
  if c = '"' then some '"'
  else if c = '\\' then some '\\'
  else if c = '/' then some '/'
  else if c = 'b' then some '\x08'
  else if c = 'f' then some '\x0c'
  else if c = 'n' then some '\n'
  else if c = 'r' then some '\r'
  else if c = 't' then some '\t'
  else none

/-- Body of a JSON string after the opening quote; returns the decoded
content and the input past the closing quote. -/
def parseStrBody : Nat → List Char → Option (List Char × List Char)
  | 0, _ => none
  | _ + 1, [] => none
  | f + 1, c :: t =>
    if c = '"' then some ([], t)
    else if c = '\\' then
      match t with
      | [] => none
      | e :: t2 =>
        if e = 'u' then
          match parseHex4 t2 with
          | some (n, t3) => (parseStrBody f t3).map (fun p => (Char.ofNat n :: p.1, p.2))
          | none => none
        else
          match escChar e with
          | some ch => (parseStrBody f t2).map (fun p => (ch :: p.1, p.2))
          | none => none
    else if c.toNat < 32 then none
    else (parseStrBody f t).map (fun p => (c :: p.1, p.2))

/-- One or more decimal digits. -/
def takeDigits (l : List Char) : List Char × List Char :=
  (l.takeWhile (fun c => '0' ≤ c ∧ c ≤ '9'), l.dropWhile (fun c => '0' ≤ c ∧ c ≤ '9'))

/-- Numeric value of a digit list. -/
def digitsVal (l : List Char) : Nat :=
  l.foldl (fun acc c => acc * 10 + (c.toNat - '0'.toNat)) 0

/-- Integer power of ten as a rational. -/
def pow10 (e : Int) : Rat :=
  if 0 ≤ e then ((10 : Rat) ^ e.toNat) else 1 / ((10 : Rat) ^ (-e).toNat)

/-- JSON numeral: sign, integer part (a leading `0` takes only itself,
so `01` fails overall exactly as in strict JSON), optional fraction,
optional exponent. -/
def parseNumber (l : List Char) : Option (Rat × List Char) :=
  let (neg, l1) := match l with
    | '-' :: t => (true, t)
    | _ => (false, l)
  let intRes : Option (Nat × List Char) :=
    match l1 with
    | '0' :: t => some (0, t)
    | c :: _ =>
      if '1' ≤ c ∧ c ≤ '9' then
        let (ds, rest) := takeDigits l1
        some (digitsVal ds, rest)
      else none
    | [] => none
  match intRes with
  | none => none
  | some (ip, l2) =>
    let (fracVal, fracLen, l3) : Rat × Nat × List Char :=
      match l2 with
      | '.' :: t =>
        let (ds, rest) := takeDigits t
        if ds.isEmpty then (0, 0, l2)
        else (((digitsVal ds : Int) : Rat) / pow10 ds.length, ds.length, rest)
      | _ => (0, 0, l2)
    let (expVal, l4) : Int × List Char :=
      match l3 with
      | e :: t =>
        if e = 'e' ∨ e = 'E' then
          let (esign, t1) : Int × List Char := match t with
            | '-' :: t2 => (-1, t2)
            | '+' :: t2 => (1, t2)
            | _ => (1, t)
          let (ds, rest) := takeDigits t1
          if ds.isEmpty then (0, l3) else (esign * (digitsVal ds : Int), rest)
        else (0, l3)
      | [] => (0, l3)
    let _ := fracLen
    let mag : Rat := (((ip : Int) : Rat) + fracVal) * pow10 expVal
    some (if neg then -mag else mag, l4)

mutual

/-- Parse one JSON value (leading whitespace allowed); returns the value
and the remaining input. -/
def parseJson : Nat → List Char → Option (Json × List Char)
  | 0, _ => none
  | f + 1, l =>
    match skipJWs l with
    | [] => none
    | '{' :: t =>
      (match skipJWs t with
       | '}' :: t2 => some (Json.obj [], t2)
       | rest => (parseFields f rest).map (fun p => (Json.obj p.1, p.2)))
    | '[' :: t =>
      (match skipJWs t with
       | ']' :: t2 => some (Json.arr [], t2)
       | rest => (parseItems f rest).map (fun p => (Json.arr p.1, p.2)))
    | '"' :: t => (parseStrBody (f + 1) t).map (fun p => (Json.str (String.mk p.1), p.2))
    | 't' :: 'r' :: 'u' :: 'e' :: t => some (Json.bool true, t)
    | 'f' :: 'a' :: 'l' :: 's' :: 'e' :: t => some (Json.bool false, t)
    | 'n' :: 'u' :: 'l' :: 'l' :: t => some (Json.null, t)
    | rest => (parseNumber rest).map (fun p => (Json.num p.1, p.2))

/-- One or more comma-separated array items followed by `]`. -/
def parseItems : Nat → List Char → Option (List Json × List Char)
  | 0, _ => none
  | f + 1, l =>
    match parseJson f l with
    | none => none
    | some (v, r) =>
      match skipJWs r with
      | ',' :: t => (parseItems f t).map (fun p => (v :: p.1, p.2))
      | ']' :: t => some ([v], t)
      | _ => none

/-- One or more comma-separated `"key": value` members followed by `}`. -/
def parseFields : Nat → List Char → Option (List (String × Json) × List Char)
  | 0, _ => none
  | f + 1, l =>
    match skipJWs l with
    | '"' :: t =>
      (match parseStrBody (f + 1) t with
       | none => none
       | some (k, r) =>
         match skipJWs r with
         | ':' :: t2 =>
           (match parseJson f t2 with
            | none => none
            | some (v, r2) =>
              match skipJWs r2 with
              | ',' :: t3 => (parseFields f t3).map (fun p => ((String.mk k, v) :: p.1, p.2))
              | '}' :: t3 => some ([(String.mk k, v)], t3)
              | _ => none)
         | _ => none)
    | _ => none

end

/-- `JSON.parse`: one value, then only whitespace may remain. -/
def jsonParse (s : String) : Option Json :=
  match parseJson (2 * s.toList.length + 8) s.toList with
  | some (v, rest) => if (skipJWs rest).isEmpty then some v else none
  | none => none

/-!
## Document model and the tool executor (`src/utils/documentTools.ts`)

HTML documents are modelled at DOM granularity, as the flat sequence of
block nodes the rich-text editor produces: a `<p>` element carrying its
text content, or any other block kept as verbatim markup (none of the
executor's operations inspects the inside of a non-`<p>` block).
Parsing a serialized document back (`div.innerHTML = html`) followed by
re-serialization (`div.innerHTML`) is the identity on this
representation, which is exactly the "up to HTML parse/serialize
round-trip" reading used by the executor.
-/

/-- One top-level block of the document DOM. -/
inductive Block where
  | para (text : String)
  | other (markup : String)
deriving DecidableEq

/-- A parsed document: the node list of the container `div`. -/
def Doc : Type := List Block

instance : DecidableEq Doc := inferInstanceAs (DecidableEq (List Block))

/-- Serialization (`div.innerHTML`). -/
def serializeBlock : Block → String
  | .para t => "<p>" ++ t ++ "</p>"
  | .other m => m

/-- Serialization of a whole document. -/
def serializeDoc (d : Doc) : String := String.join (d.map serializeBlock)

/-- The text contents of the document's `<p>` elements in document
order (`parseDocumentSegments(html).paragraphs`, keeping only the
`content` strings; `querySelectorAll('p')` order). -/
def paragraphTexts : Doc → List String
  | [] => []
  | .para t :: rest => t :: paragraphTexts rest
  | .other _ :: rest => paragraphTexts rest

/-- `Number(v)` coercion for the values that can reach an arithmetic
position (`params.paragraph_number - 1`).  `none` models `NaN`.
A numeric string is not re-parsed here (no claim feeds one); any
non-number input yields `NaN`, matching JavaScript on everything except
numeric strings and `[]`/`[n]` singletons, which do not occur. -/
def Json.toNumber : Json → Option Rat
  | .num q => some q
  | .null => some 0
  | .bool b => some (if b then 1 else 0)
  | _ => none

/-- `params.paragraph_number - 1` (property access on `undefined` is
guarded at the call site by JavaScript's coercion: `undefined - 1` is
`NaN`, modelled as `none`). -/
def minusOne (o : Option Json) : Option Rat :=
  match o with
  | some v => (v.toNumber).map (fun q => q - 1)
  | none => none

/-- `replaceParagraph` (documentTools.ts:99-109): parse the document,
take the NodeList of `<p>` elements, and if `paragraphs[index]` exists
set its `textContent`; otherwise leave the document untouched.  A
`NaN`/fractional/negative/out-of-range index selects nothing
(`paragraphs[index]` is `undefined`), so the document round-trips
unchanged. -/
def replaceParasGo (idx : Option Rat) (newContent : String) : Nat → Doc → Doc
  | _, [] => []
  | k, .para t :: rest =>
    (if idx = some ((k : Int) : Rat) then Block.para newContent else Block.para t)
      :: replaceParasGo idx newContent (k + 1) rest
  | k, .other m :: rest => Block.other m :: replaceParasGo idx newContent k rest

/-- `replaceParagraph(html, index, newContent)`. -/
def replaceParagraph (d : Doc) (idx : Option Rat) (newContent : String) : Doc :=
  replaceParasGo idx newContent 0 d

/-- `addTitle(html, titleText)` (documentTools.ts:91-94): prepend an
`<h1>` to the serialized content. -/
def addTitle (html : String) (titleText : String) : String :=
  "<h1>" ++ titleText ++ "</h1>" ++ html

/-- The `add_table` HTML rendering (documentTools.ts:243-270),
reproduced string for string. -/
def renderTable (headers : List Json) (rows : List Json) (caption : String) : String :=
  let base := "<table border=\"1\" style=\"border-collapse: collapse; width: 100%; margin: 1em 0;\">"
  let capPart := if caption = "" then "" else "<caption>" ++ caption ++ "</caption>"
  let headCells := String.join (headers.map (fun h =>
    "<th style=\"border: 1px solid #ddd; padding: 8px; text-align: left; background-color: #f2f2f2;\">"
      ++ h.display ++ "</th>"))
  let rowPart := String.join (rows.map (fun row =>
    "<tr>" ++
      (match row with
       | Json.arr cells => String.join (cells.map (fun cell =>
           "<td style=\"border: 1px solid #ddd; padding: 8px;\">" ++ cell.display ++ "</td>"))
       | _ => "") ++ "</tr>"))
  base ++ capPart ++ "<thead><tr>" ++ headCells ++ "</tr></thead>"
    ++ "<tbody>" ++ rowPart ++ "</tbody></table>"

/-- Result record of `executeTool`. -/
structure ToolResult where
  success : Bool
  newHtml : Option String
  message : String
deriving DecidableEq

/-- The truthy-string test `!v || typeof v !== 'string'` used by the
content-bearing tool cases: the parameter passes only when it is a
non-empty string. -/
def asContentString (o : Option Json) : Option String :=
  match optTruthy o with
  | some (Json.str s) => some s
  | _ => none

/-- `params.summary || null` followed by `userSummary || default`. -/
def messageOr (params : Json) (dflt : String) : String :=
  match optTruthy (params.getField "summary") with
  | some v => v.display
  | none => dflt

/-- `executeTool(toolName, params, html)` (documentTools.ts:172-300),
case for case.  The input document is the parsed `html`; `newHtml` is
returned serialized, as in the source.  The `try`/`catch` wrapper only
fires for `add_table` with a non-array `headers`/`rows` (a `TypeError`
whose environment-specific text is modelled by a constant). -/
def executeTool (toolName : String) (params : Json) (d : Doc) : ToolResult :=
  if toolName = "add_title" then
    { success := true
      newHtml := some (addTitle (serializeDoc d) (jsTemplate (params.getField "title")))
      message := messageOr params ("Added title: \"" ++ jsTemplate (params.getField "title") ++ "\"") }
  else if toolName = "edit_first_paragraph" then
    match asContentString (jsOrVal (params.getField "new_content") (params.getField "text")) with
    | none => { success := false, newHtml := none
                message := "No content provided to edit - please specify what to write" }
    | some contentFirst =>
      { success := true
        newHtml := some (serializeDoc (replaceParagraph d (some 0) contentFirst))
        message := messageOr params "Updated introduction paragraph" }
  else if toolName = "edit_last_paragraph" then
    match asContentString (jsOrVal (params.getField "new_content") (params.getField "text")) with
    | none => { success := false, newHtml := none
                message := "No content provided to edit - please specify what to write" }
    | some contentLast =>
      { success := true
        newHtml := some (serializeDoc (replaceParagraph d
          (some (((paragraphTexts d).length : Int) - 1 : Int)) contentLast))
        message := messageOr params "Updated conclusion paragraph" }
  else if toolName = "edit_paragraph" then
    match asContentString (jsOrVal (params.getField "new_content") (params.getField "text")) with
    | none => { success := false, newHtml := none
                message := "No content provided to edit - please specify what to write" }
    | some contentSpecific =>
      { success := true
        newHtml := some (serializeDoc (replaceParagraph d
          (minusOne (params.getField "paragraph_number")) contentSpecific))
        message := messageOr params
          ("Edited paragraph " ++ jsTemplate (params.getField "paragraph_number")) }
  else if toolName = "append_text" then
    match asContentString (params.getField "text") with
    | none => { success := false, newHtml := none, message := "No text provided to append" }
    | some t =>
      { success := true
        newHtml := some (serializeDoc d ++ "<p>" ++ t ++ "</p>")
        message := messageOr params "Appended new text to document" }
  else if toolName = "prepend_text" then
    match asContentString (params.getField "text") with
    | none => { success := false, newHtml := none, message := "No text provided to prepend" }
    | some t =>
      { success := true
        newHtml := some ("<p>" ++ t ++ "</p>" ++ serializeDoc d)
        message := messageOr params "Added text to the beginning" }
  else if toolName = "add_table" then
    match params.getField "headers", params.getField "rows" with
    | some (Json.arr hs), some (Json.arr rs) =>
      let caption := match optTruthy (params.getField "caption") with
        | some v => v.display
        | none => ""
      { success := true
        newHtml := some (serializeDoc d ++ renderTable hs rs caption)
        message := messageOr params "Added a data table to the document" }
    | _, _ =>
      { success := false, newHtml := none
        message := "Tool error: headers/rows is not iterable" }
  else if toolName = "replace_all" then
    match asContentString (params.getField "text") with
    | none => { success := false, newHtml := none
                message := "No content provided to replace document" }
    | some t =>
      { success := true, newHtml := some t
        message := messageOr params "Rewrote the entire document" }
  else if toolName = "reply" then
    { success := true, newHtml := none
      message := match optTruthy (params.getField "message") with
        | some v => v.display
        | none => "Response generated." }
  else
    { success := false, newHtml := none, message := "Unknown tool: " ++ toolName }

/-!
## Chunker (`src/utils/textChunker.ts`)

`chunkText` is a `while` loop whose progress is not structurally
guaranteed, so the loop is embedded with explicit fuel: `chunkLoop fuel
start index` returns `some chunks` when the loop reaches `start ≥
cleanText.length` within `fuel` iterations, and `none` otherwise.  The
source terminates on an input exactly when some fuel suffices.
-/

/-- A text chunk (`TextChunk`).  `id` is `crypto.randomUUID()` in the
source, an opaque fresh token that no claim inspects; it is modelled as
the empty string. -/
structure TextChunk where
  id : String
  text : String
  source : String
  index : Nat
deriving DecidableEq

/-- The cut-point computation of one `chunkText` iteration
(textChunker.ts:20-40).  The comparison `lastPunctuation > start +
chunkSize * 0.5` is the exact rational comparison `2 * lastPunctuation >
2 * start + chunkSize`. -/
def chunkEnd (ct : List Char) (start chunkSize : Int) : Int :=
  let e := start + chunkSize
  if e < (ct.length : Int) then
    let lastPunctuation :=
      max (max (jsLastIndexOf ct '.' e) (jsLastIndexOf ct '?' e)) (jsLastIndexOf ct '!' e)
    if lastPunctuation ≠ -1 ∧ 2 * lastPunctuation > 2 * start + chunkSize then
      lastPunctuation + 1
    else
      let lastSpace := jsLastIndexOf ct ' ' e
      if lastSpace ≠ -1 ∧ lastSpace > start then lastSpace else e
  else e

/-- `start = end - overlap; if (start >= end) start = end;`
(textChunker.ts:53-55). -/
def nextStart (e overlap : Int) : Int :=
  let s := e - overlap
  if s ≥ e then e else s

/-- The `while (start < cleanText.length)` loop of `chunkText`, with
fuel. -/
def chunkLoop (ct : List Char) (source : String) (chunkSize overlap : Int) :
    Nat → Int → Nat → Option (List TextChunk)
  | 0, _, _ => none
  | fuel + 1, start, index =>
    if start < (ct.length : Int) then
      let e := chunkEnd ct start chunkSize
      let piece := trimL (jsSlice ct start e)
      let start' := nextStart e overlap
      if piece.length > 0 then
        (chunkLoop ct source chunkSize overlap fuel start' (index + 1)).map
          (fun rest => ⟨"", String.mk piece, source, index⟩ :: rest)
      else
        chunkLoop ct source chunkSize overlap fuel start' index
    else
      some []

/-- `chunkText(text, source, chunkSize, overlap)` under a given fuel;
`some` exactly when the loop finishes within `fuel` iterations. -/
def chunkTextFuel (fuel : Nat) (text source : String) (chunkSize overlap : Int) :
    Option (List TextChunk) :=
  let cleanText := normalizeWs text.toList
  if cleanText.length = 0 then some []
  else chunkLoop cleanText source chunkSize overlap fuel 0 0

/-!
## Relevance retriever — keyword mode (`useOllama.ts`,
`findRelevantChunks` lines 115-182, `getRepresentativeSamples` 97-111)

The embedding-vector branch (lines 130-156) runs only when an embedding
model is configured; the functions below embed the keyword fallback
path, which is the mode every retrieval claim addresses.
-/

/-- A context document as the retriever sees it: its display name, its
full text, and its chunks. -/
structure ContextDocument where
  name : String
  content : String
  chunks : List TextChunk

/-- The fixed general/summary intent patterns (useOllama.ts:121-126).
Each regex is a bare case-insensitive substring. -/
def generalQueryPatterns : List String :=
  ["özet", "summary", "summarize", "özetle",
   "tell me about", "what is this", "describe",
   "ne hakkında", "anlat", "explain", "açıkla",
   "context", "belge", "document", "book", "kitap"]

/-- Case-insensitive substring test (a bare `i`-flagged regex
`p.test(query)`). -/
def testCI (q p : String) : Bool := inclL (q.toList.map lowerChar) (p.toList.map lowerChar)

/-- `isGeneralQuery` (useOllama.ts:127): some pattern matches, or
samples are forced. -/
def isGeneralQuery (query : String) (forceReturnSamples : Bool) : Bool :=
  generalQueryPatterns.any (fun p => testCI query p) || forceReturnSamples

/-- All chunks of the corpus in document order
(`contextDocuments.flatMap(d => d.chunks)`). -/
def allChunksOf (docs : List ContextDocument) : List TextChunk :=
  docs.flatMap (fun d => d.chunks)

/-- `getRepresentativeSamples`'s sampling loop
(`for (let i = 0; i < allChunks.length && samples.length < maxChunks;
i += step)`), recursing on the number of samples still allowed — each
iteration pushes exactly one sample. -/
def sampleLoop (allChunks : List TextChunk) (step : Nat) : Nat → Nat → List TextChunk
  | _, 0 => []
  | i, remaining + 1 =>
    match allChunks.get? i with
    | some c => c :: sampleLoop allChunks step (i + step) remaining
    | none => []

/-- `getRepresentativeSamples(maxChunks)` (useOllama.ts:97-111). -/
def getRepresentativeSamples (docs : List ContextDocument) (maxChunks : Nat) : List TextChunk :=
  if docs.isEmpty then []
  else
    let allChunks := allChunksOf docs
    if allChunks.length ≤ maxChunks then allChunks
    else sampleLoop allChunks (allChunks.length / maxChunks) 0 maxChunks

/-- Query tokenisation (useOllama.ts:159):
`query.toLowerCase().split(/\s+/).filter(t => t.length > 3)`. -/
def keywordTerms (query : String) : List String :=
  (((jsLower query).toList.splitOnP (fun c => isWsChar c)).map String.mk).filter
    (fun t => t.length > 3)

/-- A chunk's keyword score (useOllama.ts:160-168): one point per query
term that occurs (at least once) as a substring of the lowercased chunk
text, plus five if the whole lowercased query occurs. -/
def keywordScore (query : String) (chunk : TextChunk) : Nat :=
  let text := jsLower chunk.text
  let base := (keywordTerms query).foldl
    (fun score term => if incl text term then score + 1 else score) 0
  if incl text (jsLower query) then base + 5 else base

/-- Modelled from the spec's wording only (for comparison with the
source behaviour): "score each chunk by counting case-insensitive
substring occurrences of each token, plus a large bonus (+5) if the
entire query string appears verbatim". -/
def keywordScoreSpec (query : String) (chunk : TextChunk) : Nat :=
  let text := (jsLower chunk.text).toList
  let base := (keywordTerms query).foldl
    (fun score term => score + occCount text term.toList) 0
  if inclL text (jsLower query).toList then base + 5 else base

/-- Stable insert for a descending sort: `x` (which in the insertion
sort comes from an earlier position than every element of the list it
is inserted into) is placed before the first element whose score is
not strictly larger — that is, after the strictly-greater scores and
before all equal or smaller ones, which keeps equal-score elements in
their original order. -/
def insertDesc (x : TextChunk × Nat) : List (TextChunk × Nat) → List (TextChunk × Nat)
  | [] => [x]
  | y :: ys => if y.2 > x.2 then y :: insertDesc x ys else x :: y :: ys

/-- Stable descending sort by score: insertion sort with `insertDesc`,
the unique stable result of `scored.sort((a, b) => b.score - a.score)`
(ECMAScript sort is stable: descending scores, equal scores in
original order — see `pairwise_stableSortDesc`, `stableSortDesc_perm`
and `stableSortDesc_filter_eq`). -/
def stableSortDesc : List (TextChunk × Nat) → List (TextChunk × Nat)
  | [] => []
  | x :: xs => insertDesc x (stableSortDesc xs)

/-- The scored/filtered/sorted/truncated keyword result
(useOllama.ts:160-174): score every chunk, keep scores `> 0`, sort
descending (stably), take the top five, drop the scores. -/
def keywordFiltered (query : String) (allChunks : List TextChunk) : List TextChunk :=
  let scored := allChunks.map (fun chunk => (chunk, keywordScore query chunk))
  ((stableSortDesc (scored.filter (fun s => s.2 > 0))).take 5).map (fun s => s.1)

/-- `findRelevantChunks(query, forceReturnSamples)` in keyword mode
(no embedding model configured; useOllama.ts:115-127 and 158-181). -/
def findRelevantChunksKeyword (docs : List ContextDocument) (query : String)
    (forceReturnSamples : Bool) : List TextChunk :=
  if docs.isEmpty then []
  else
    let filtered := keywordFiltered query (allChunksOf docs)
    if filtered.isEmpty ∧ isGeneralQuery query forceReturnSamples then
      getRepresentativeSamples docs 5
    else filtered

/-!
## Query planner (`useOllama.ts`, `generateSearchQueries` lines 472-522)

The HTTP transport is abstracted as an outcome: the `fetch` promise
rejects (endpoint unreachable), or a response arrives with an `ok` flag
and a body.  `response.json()` is the body's JSON parse (throwing =
`none`), and the planner then parses `data.response` a second time.
-/

/-- The planner's `{queries, thought}` result. -/
structure PlanResult where
  queries : List String
  thought : String
deriving DecidableEq

/-- Outcome of the planner's `fetch`. -/
inductive FetchOutcome where
  | netError
  | resp (ok : Bool) (body : String)

/-- `result.search_queries || []`, with the array elements read as
strings (the planner's declared shape). -/
def queriesOf (result : Json) : List String :=
  match optTruthy (result.getField "search_queries") with
  | some (Json.arr xs) => xs.map Json.display
  | _ => []

/-- `result.thought || ''`. -/
def thoughtOf (result : Json) : String :=
  match optTruthy (result.getField "thought") with
  | some v => v.display
  | none => ""

/-- The `catch` fallback of the planner (useOllama.ts:520). -/
def plannerFallback (userQuery : String) : PlanResult :=
  { queries := [userQuery], thought := "Planner failed, falling back to direct query." }

/-- `generateSearchQueries(userQuery, docSummary)` (useOllama.ts:472-522).
`hasModel` is `!!selectedModel`; the document summary only feeds the
prompt text and does not influence the result shape. -/
def generateSearchQueries (hasModel : Bool) (userQuery : String)
    (outcome : FetchOutcome) : PlanResult :=
  if !hasModel then { queries := [], thought := "" }
  else
    match outcome with
    | .netError => plannerFallback userQuery
    | .resp ok body =>
      if !ok then { queries := [], thought := "" }
      else
        match jsonParse body with
        | none => plannerFallback userQuery
        | some data =>
          match data.getField "response" with
          | some (Json.str s) =>
            (match jsonParse s with
             | none => plannerFallback userQuery
             | some Json.null => plannerFallback userQuery
             | some result => { queries := queriesOf result, thought := thoughtOf result })
          | some v =>
            (match jsonParse v.display with
             | none => plannerFallback userQuery
             | some Json.null => plannerFallback userQuery
             | some result => { queries := queriesOf result, thought := thoughtOf result })
          | none => plannerFallback userQuery

/-!
## Streaming tool-call extractor (`useOllama.ts`, `agenticChatStream`
lines 524-897)

The state threaded through the `while` read-loop, one record per
mutable local of the source.  Each decoded network fragment is
processed by `processChunk`, which returns the new state and the
`onChunk` events emitted during that iteration (the events of the
read-loop all carry `done = false`; the single terminal event comes
from `finalize`).  The pre-loop debug/planner progress messages are not
part of the extractor state machine and are not modelled.
-/

/-- The extractor's mutable state (`fullText`, `accumulatedRaw`,
`isJsonDetected`, `detectedTool`, `accumulatedContent`,
`accumulatedThought`, `lastMessage`). -/
structure StreamState where
  fullText : String
  accumulatedRaw : String
  isJsonDetected : Bool
  detectedTool : String
  accumulatedContent : String
  accumulatedThought : String
  lastMessage : String
deriving DecidableEq

/-- One `onChunk(...)` event (an `AgenticResponse` plus the `done`
flag).  `action` is the string union of the source. -/
structure Event where
  action : String
  message : String
  thought : String
  content : String
  done : Bool
deriving DecidableEq

/-- Initial state at the top of the read loop; `msg0` is the initial
`lastMessage` (planner-thought banner or `'Thinking...'`). -/
def initState (msg0 : String) : StreamState :=
  { fullText := "", accumulatedRaw := "", isJsonDetected := false, detectedTool := ""
    accumulatedContent := "", accumulatedThought := "", lastMessage := msg0 }

/-!
### The regex scanners

Each models one of the extractor's regular expressions as a leftmost
match over start positions.
-/

/-- Greedy `((?:[^"\\]|\\.)*)` with the `s` flag: the maximal run of
units that are either a non-quote non-backslash character or a
backslash followed by any character. -/
def escapedRun : List Char → List Char
  | [] => []
  | '\\' :: c :: t => '\\' :: c :: escapedRun t
  | '\\' :: [] => []
  | '"' :: _ => []
  | c :: t => c :: escapedRun t

/-- Helper for `takeBeforeUnescapedQuote` carrying the previous
character (the lookbehind). -/
def takeBeforeUnescapedQuoteAfter (prev : Char) : List Char → List Char
  | [] => []
  | '"' :: t => if prev = '\\' then '"' :: takeBeforeUnescapedQuoteAfter '"' t else []
  | c :: t => c :: takeBeforeUnescapedQuoteAfter c t

/-- `raw.split(/(?<!\\)"/)` followed by taking the first part when the
split produced more than one: everything before the first quote whose
immediate predecessor is not a backslash (identity when there is no
such quote). -/
def takeBeforeUnescapedQuote (l : List Char) : List Char :=
  match l with
  | [] => []
  | '"' :: _ => []
  | c :: t => c :: takeBeforeUnescapedQuoteAfter c t

/-- The unescaping chain
`.replace(/\\n/g,'\n').replace(/\\"/g,'"').replace(/\\\\/g,'\\')`. -/
def unescapeJs (s : String) : String :=
  replAll (replAll (replAll s "\\n" "\n") "\\\"" "\"") "\\\\" "\\"

/-- Whitespace skipping for the `\s*` in the field patterns. -/
def dropPatWs (l : List Char) : List Char := l.dropWhile isWsChar

/-- After a matched quoted key: `\s* : \s* "` then the greedy escaped
run (shared shape of the `"thought"` and content-field patterns). -/
def fieldValueAt (l : List Char) : Option (List Char) :=
  match dropPatWs l with
  | ':' :: r =>
    (match dropPatWs r with
     | '"' :: r2 => some (escapedRun r2)
     | _ => none)
  | _ => none

/-- `/"thought"\s*:\s*"((?:[^"\\]|\\.)*)/s` — leftmost match, group 1. -/
def thoughtFieldScan (s : String) : Option String :=
  (scanSuffixes (fun u =>
    if headMatches u "\"thought\"".toList then
      (fieldValueAt (u.drop 9)).map String.mk
    else none) s.toList)

/-- `/"(text|new_content|replacement_content)"\s*:\s*"((?:[^"\\]|\\.)*)/s`
— leftmost match, group 2. -/
def contentFieldScan (s : String) : Option String :=
  (scanSuffixes (fun u =>
    if headMatches u "\"text\"".toList then
      (fieldValueAt (u.drop 6)).map String.mk
    else if headMatches u "\"new_content\"".toList then
      (fieldValueAt (u.drop 13)).map String.mk
    else if headMatches u "\"replacement_content\"".toList then
      (fieldValueAt (u.drop 21)).map String.mk
    else none) s.toList)

/-- `/"tool"\s*:\s*"([^"]+)"/` — leftmost match: a quoted `tool` key,
colon, then a quoted non-empty name that must already be closed. -/
def toolScan (s : String) : Option String :=
  (scanSuffixes (fun u =>
    if headMatches u "\"tool\"".toList then
      match dropPatWs (u.drop 6) with
      | ':' :: r =>
        (match dropPatWs r with
         | '"' :: r2 =>
           let name := r2.takeWhile (fun c => c ≠ '"')
           if name.isEmpty then none
           else if (r2.drop name.length).headD ' ' = '"' then some (String.mk name)
           else none
         | _ => none)
      | _ => none
    else none) s.toList)

/-- Body of `/<think(?:ing)?>([\s\S]*?)(?:<\/think(?:ing)?>|$)/i`: the
lazy group stops at the first closing tag, or runs to the end of the
input. -/
def thinkBody : List Char → List Char
  | [] => []
  | c :: t =>
    if headMatchesCI (c :: t) "</thinking>".toList ∨ headMatchesCI (c :: t) "</think>".toList
    then []
    else c :: thinkBody t

/-- The whole think-tag pattern: leftmost opening `<thinking>` or
`<think>` (case-insensitive, the longer alternative first), group 1 =
body up to the first closing tag or end of input. -/
def thinkTagScan (s : String) : Option String :=
  (scanSuffixes (fun u =>
    if headMatchesCI u "<thinking>".toList then some (String.mk (thinkBody (u.drop 10)))
    else if headMatchesCI u "<think>".toList then some (String.mk (thinkBody (u.drop 7)))
    else none) s.toList)

/-!
### One read-loop iteration
-/

/-- `if (data.message && data.message.content) fullText += ...`
(useOllama.ts:696-698). -/
def lineContent (st : StreamState) (data : Json) : StreamState :=
  match optTruthy (data.getField "message") with
  | some m =>
    (match optTruthy (m.getField "content") with
     | some c => { st with fullText := st.fullText ++ c.display }
     | none => st)
  | none => st

/-- `if (data.message && data.message.thinking)`: append the thinking
delta and emit it immediately (useOllama.ts:701-710). -/
def lineThinking (st : StreamState) (data : Json) : StreamState × List Event :=
  match optTruthy (data.getField "message") with
  | some m =>
    (match optTruthy (m.getField "thinking") with
     | some th =>
       let st2 := { st with
         accumulatedThought := st.accumulatedThought ++ th.display }
       (st2, [{ action := "none", message := "Thinking...",
                thought := st2.accumulatedThought, content := "", done := false }])
     | none => (st, []))
  | none => (st, [])

/-- Process one complete NDJSON line (useOllama.ts:692-715): skip blank
lines, try `JSON.parse`, append a `message.content` delta to
`fullText`, append a `message.thinking` delta to `accumulatedThought`
and emit it immediately; a malformed line is discarded. -/
def lineStep (st : StreamState) (line : String) : StreamState × List Event :=
  if (jsTrim line).isEmpty then (st, [])
  else
    match jsonParse line with
    | none => (st, [])
    | some data => lineThinking (lineContent st data) data

/-- Fold `lineStep` over the complete lines of this fragment. -/
def lineSteps (st : StreamState) (lines : List String) : StreamState × List Event :=
  lines.foldl (fun acc l =>
    let r := lineStep acc.1 l
    (r.1, acc.2 ++ r.2)) (st, [])

/-- The JSON-detection latch (useOllama.ts:718-720). -/
def jsonFlagStep (st : StreamState) : StreamState :=
  if !st.isJsonDetected ∧
      (startsW (jsTrim st.fullText) "\x7b" ∨ startsW (jsTrim st.fullText) "```json") then
    { st with isJsonDetected := true }
  else st

/-- Native `<think>`/`<thinking>` block handling (useOllama.ts:724-740):
adopt the (trimmed) body only when it is longer than the current
thought, update the status message, emit. -/
def thinkTagStep (st : StreamState) : StreamState × List Event :=
  match thinkTagScan st.fullText with
  | some body =>
    let nativeThought := jsTrim body
    if nativeThought.length > st.accumulatedThought.length then
      let isThinkingComplete :=
        incl st.fullText "</think" ∨ incl st.fullText "</thinking"
      let lm := if isThinkingComplete then "Processing response..." else "Thinking..."
      let st' := { st with accumulatedThought := nativeThought, lastMessage := lm }
      (st', [{ action := "none", message := lm,
               thought := nativeThought, content := "", done := false }])
    else (st, [])
  | none => (st, [])

/-- JSON `"thought"` field handling (useOllama.ts:744-762): leftmost
partial match, cut at the first unescaped quote, unescape, adopt only
if longer, emit. -/
def thoughtFieldStep (st : StreamState) : StreamState × List Event :=
  match thoughtFieldScan st.fullText with
  | some rawThought =>
    let raw := String.mk (takeBeforeUnescapedQuote rawThought.toList)
    let cleanThought := unescapeJs raw
    if cleanThought.length > st.accumulatedThought.length then
      let st' := { st with accumulatedThought := cleanThought }
      (st', [{ action := "none", message := st.lastMessage,
               thought := cleanThought, content := "", done := false }])
    else (st, [])
  | none => (st, [])

/-- Early tool-name lock (useOllama.ts:764-769): only assigned while
still empty. -/
def toolLockStep (st : StreamState) : StreamState :=
  if st.detectedTool = "" then
    match toolScan st.fullText with
    | some t => { st with detectedTool := t }
    | none => st
  else st

/-- The live-preview transform applied by the optimistic content
streaming (useOllama.ts:794-799): `documentContent` is the pre-edit
document html. -/
def previewContent (docHtml : String) (tool content : String) : String :=
  if tool = "append_text" then docHtml ++ "\n" ++ content
  else if tool = "prepend_text" then content ++ "\n" ++ docHtml
  else content

/-- Optimistic content streaming (useOllama.ts:771-809): when the
locked tool is content-bearing and the extracted primary content field
grew, adopt it and emit a `rewrite` preview of the full document. -/
def contentStep (docHtml : String) (st : StreamState) : StreamState × List Event :=
  if st.detectedTool = "append_text" ∨ st.detectedTool = "replace_all"
      ∨ st.detectedTool = "prepend_text" then
    match contentFieldScan st.fullText with
    | some rawContent =>
      let raw := String.mk (takeBeforeUnescapedQuote rawContent.toList)
      let cleanContent := unescapeJs raw
      if cleanContent.length > st.accumulatedContent.length then
        let st' := { st with accumulatedContent := cleanContent, lastMessage := "Writing..." }
        (st', [{ action := "rewrite", message := "Writing...",
                 thought := st.accumulatedThought,
                 content := previewContent docHtml st.detectedTool cleanContent,
                 done := false }])
      else (st, [])
    | none => (st, [])
  else (st, [])

/-- Pre-JSON status heuristic (useOllama.ts:810-832): pick a status
message (the literal short reply only when under 50 characters with no
brace) and emit it. -/
def statusStep (st : StreamState) : StreamState × List Event :=
  let lm :=
    if startsW (jsTrim st.fullText) "\x7b" ∨ incl st.fullText "\"tool\"" then "Processing..."
    else if jsTrim st.fullText = "```" ∨ jsTrim st.fullText = "`"
        ∨ jsTrim st.fullText = "```json" then "Thinking..."
    else if st.fullText.length < 50 ∧ ¬ incl st.fullText "\x7b" then st.fullText
    else "Generating..."
  ({ st with lastMessage := lm },
   [{ action := "none", message := lm, thought := st.accumulatedThought,
      content := "", done := false }])

/-- The post-line-scan of one read-loop iteration
(useOllama.ts:717-832). -/
def postScan (docHtml : String) (st : StreamState) : StreamState × List Event :=
  let st0 := jsonFlagStep st
  let r1 := thinkTagStep st0
  if r1.1.isJsonDetected then
    let r2 := thoughtFieldStep r1.1
    let st3 := toolLockStep r2.1
    let r4 := contentStep docHtml st3
    (r4.1, r1.2 ++ r2.2 ++ r4.2)
  else
    let r2 := statusStep r1.1
    (r2.1, r1.2 ++ r2.2)

/-- The complete lines extracted from this fragment
(`accumulatedRaw += chunk; lines = accumulatedRaw.split('\n');
lines.pop()`). -/
def chunkLines (st : StreamState) (chunk : String) : List String :=
  ((splitNl (st.accumulatedRaw ++ chunk).toList).dropLast).map String.mk

/-- The state with the trailing partial line put back in the buffer
(`accumulatedRaw = lines.pop() || ''`). -/
def chunkBuffered (st : StreamState) (chunk : String) : StreamState :=
  { st with accumulatedRaw :=
      String.mk ((splitNl (st.accumulatedRaw ++ chunk).toList).getLastD []) }

/-- Process one decoded network fragment (one iteration of the `while`
read loop, useOllama.ts:680-833): append to the raw NDJSON buffer,
split on newlines keeping the trailing partial line buffered, process
the complete lines, then run the partial-JSON scans. -/
def processChunk (docHtml : String) (st : StreamState) (chunk : String) :
    StreamState × List Event :=
  let r1 := lineSteps (chunkBuffered st chunk) (chunkLines st chunk)
  let r2 := postScan docHtml r1.1
  (r2.1, r1.2 ++ r2.2)

/-- Run the read loop over a fragment sequence from the initial state,
collecting the emitted events. -/
def runStream (docHtml msg0 : String) (chunks : List String) :
    StreamState × List Event :=
  chunks.foldl (fun acc c =>
    let r := processChunk docHtml acc.1 c
    (r.1, acc.2 ++ r.2)) (initState msg0, [])

/-- The state after consuming a fragment list. -/
def stateAfter (docHtml msg0 : String) (chunks : List String) : StreamState :=
  (runStream docHtml msg0 chunks).1

/-- The events emitted while consuming a fragment list (all of them
`done = false`). -/
def streamEvents (docHtml msg0 : String) (chunks : List String) : List Event :=
  (runStream docHtml msg0 chunks).2

/-!
### End-of-stream finalization (useOllama.ts:835-885)
-/

/-- `cleanJson`: strip a leading ```` ```json ```` fence (with trailing
whitespace) and a trailing ```` ``` ```` fence (with preceding
whitespace) — the two anchored single replaces. -/
def stripFences (s : String) : String :=
  let s1 := if startsW s "```json" then String.mk (trimLeftL (s.toList.drop 7)) else s
  if headMatches s1.toList.reverse "```".toList.reverse then
    String.mk (((s1.toList.dropLast.dropLast.dropLast).reverse.dropWhile isWsChar).reverse)
  else s1

/-- The end-of-stream parse: locate the last `}` and `JSON.parse`
everything up to and including it; no `}` at all is a parse failure. -/
def finalParse (s : String) : Option Json :=
  let lastBrace := jsLastIndexOf s.toList '\x7d' ((s.toList.length : Int) - 1)
  if lastBrace = -1 then none
  else jsonParse (String.mk (s.toList.take (lastBrace.toNat + 1)))

/-- Is the parsed tool field strictly equal to `'reply'`
(`toolCall.tool === 'reply'`)? -/
def isReplyTool (toolCall : Json) : Bool :=
  match toolCall.getField "tool" with
  | some (Json.str s) => s == "reply"
  | _ => false

/-- `result.newHtml || documentContent`. -/
def newHtmlOr (r : ToolResult) (docHtml : String) : String :=
  match r.newHtml with
  | some s => if s.isEmpty then docHtml else s
  | none => docHtml

/-- The single terminal event (useOllama.ts:835-885): on successful
parse dispatch to `executeTool` and either reply or rewrite the canvas;
on parse failure fall back to the raw text (fences stripped) when any
visible text accumulated, else a fixed error message; without JSON the
raw text is the reply. -/
def finalize (doc : Doc) (st : StreamState) : Event :=
  if st.isJsonDetected then
    match finalParse (stripFences st.fullText) with
    | some toolCall =>
      let result := executeTool (jsTemplate (toolCall.getField "tool")) toolCall doc
      if result.success then
        if isReplyTool toolCall then
          { action := "none", message := result.message,
            thought := st.accumulatedThought, content := "", done := true }
        else
          { action := "rewrite", message := result.message,
            thought := st.accumulatedThought,
            content := newHtmlOr result (serializeDoc doc), done := true }
      else
        { action := "none",
          message := if result.message.isEmpty then "Tool execution failed" else result.message,
          thought := st.accumulatedThought, content := "", done := true }
    | none =>
      if (jsTrim st.fullText).length > 0 then
        { action := "none",
          message := replAll (replAll st.fullText "```json" "") "```" "",
          thought := st.accumulatedThought, content := "", done := true }
      else
        { action := "none", message := "Error parsing AI response. Please try again.",
          thought := st.accumulatedThought, content := "", done := true }
  else
    { action := "none", message := st.fullText,
      thought := st.accumulatedThought, content := "", done := true }

/-- The complete event trace of `agenticChatStream`'s extractor for a
fragment sequence: the read-loop events followed by the final flush.
`doc` is the pre-edit document (`documentContent` is its
serialization). -/
def agenticStreamTrace (doc : Doc) (msg0 : String) (chunks : List String) : List Event :=
  streamEvents (serializeDoc doc) msg0 chunks ++ [finalize doc (stateAfter (serializeDoc doc) msg0 chunks)]

/-!
## Claim theorems
-/

/-- Helper: `replaceParasGo` leaves the document unchanged when the
index matches none of the paragraph positions it visits. -/
theorem replaceParasGo_id (idx : Option Rat) (nc : String) :
    ∀ (d : Doc) (k : Nat),
      (∀ j : Nat, k ≤ j → j < k + (paragraphTexts d).length → idx ≠ some ((j : Int) : Rat)) →
      replaceParasGo idx nc k d = d := by
  intro d
  induction d with
  | nil => intro k _; rfl
  | cons b rest ih =>
    intro k h
    cases b with
    | para t =>
      have hk : idx ≠ some ((k : Int) : Rat) := by
        refine h k le_rfl ?_
        simp [paragraphTexts]
      simp only [replaceParasGo, if_neg hk]
      rw [ih (k + 1)]
      intro j hj1 hj2
      refine h j (by omega) ?_
      have : (paragraphTexts (Block.para t :: rest)).length
          = (paragraphTexts rest).length + 1 := by simp [paragraphTexts]
      omega
    | other m =>
      simp only [replaceParasGo]
      rw [ih k]
      intro j hj1 hj2
      refine h j hj1 ?_
      have : (paragraphTexts (Block.other m :: rest)).length
          = (paragraphTexts rest).length := by simp [paragraphTexts]
      omega

/-- C10: an out-of-range (or otherwise invalid) `paragraph_number`
makes `edit_paragraph` a silent no-op: `executeTool` still reports
`success = true` with its confirmation message, and the returned
`newHtml` is the document serialized unchanged — no paragraph is
modified and no failure is signalled. -/
theorem c10_edit_paragraph_out_of_range (d : Doc) (pn : Int) (content : String)
    (hc : content ≠ "")
    (hoob : ¬ (1 ≤ pn ∧ pn ≤ ((paragraphTexts d).length : Int))) :
    executeTool "edit_paragraph"
      (Json.obj [("paragraph_number", Json.num ((pn : Int) : Rat)),
                 ("new_content", Json.str content)]) d
    = { success := true, newHtml := some (serializeDoc d),
        message := "Edited paragraph " ++ toString pn } := by
  have hne : content.isEmpty = false := by
    cases hx : content.isEmpty
    · rfl
    · exact absurd ((String.isEmpty_iff content).mp hx) hc
  have hrep : replaceParagraph d (some (((pn : Int) : Rat) - 1)) content = d := by
    unfold replaceParagraph
    refine replaceParasGo_id _ _ d 0 ?_
    intro j _ hj2 hcontra
    have hcast : ((pn : Int) : Rat) - 1 = ((j : Int) : Rat) := by
      exact (Option.some.injEq _ _).mp hcontra
    have : ((pn - 1 : Int) : Rat) = ((j : Int) : Rat) := by push_cast; push_cast at hcast; linarith
    have hpj : pn - 1 = (j : Int) := by exact_mod_cast this
    omega
  have hnum : ((((pn : Int) : Rat)).den = 1) := Rat.den_intCast pn
  have hnumv : ((((pn : Int) : Rat)).num = pn) := Rat.num_intCast pn
  simp [executeTool, Json.getField, asContentString, jsOrVal, optTruthy, Json.truthy,
    hne, minusOne, Json.toNumber, messageOr, jsTemplate, Json.display, ratDisplay,
    hrep, hnum, hnumv]

/-- Witness for C10 at a concrete input: a one-paragraph document and
`paragraph_number = 5`. -/
theorem c10_edit_paragraph_out_of_range_witness :
    ("x" ≠ "")
    ∧ ¬ (1 ≤ (5 : Int) ∧ (5 : Int) ≤ ((paragraphTexts [Block.para "hello"]).length : Int))
    ∧ executeTool "edit_paragraph"
        (Json.obj [("paragraph_number", Json.num (((5 : Int)) : Rat)),
                   ("new_content", Json.str "x")]) [Block.para "hello"]
      = { success := true, newHtml := some (serializeDoc [Block.para "hello"]),
          message := "Edited paragraph " ++ toString (5 : Int) } :=
  ⟨by decide, by decide,
   c10_edit_paragraph_out_of_range [Block.para "hello"] 5 "x" (by decide) (by decide)⟩

/-- C3 counterexample: `add_title` with the `title` parameter absent
does NOT return `success = false` — it succeeds, interpolating
`undefined` into the title, and returns a changed document. -/
theorem c3_counterexample :
    (executeTool "add_title" (Json.obj []) [Block.para "x"]).success = true
    ∧ (executeTool "add_title" (Json.obj []) [Block.para "x"]).newHtml
        = some "<h1>undefined</h1><p>x</p>"
    ∧ (executeTool "add_title" (Json.obj []) [Block.para "x"]).message
        = "Added title: \"undefined\"" := by
  refine ⟨rfl, rfl, rfl⟩

/-- C3 (amended): the content-bearing tools (`edit_first_paragraph`,
`edit_last_paragraph`, `edit_paragraph`, `append_text`, `prepend_text`,
`replace_all`) all validate their required string parameter: with both
`new_content` and `text` absent they return `success = false` with a
descriptive message and no `newHtml`, never throwing; `add_title`
however performs no validation: with `title` absent it returns
`success = true` and a document with the literal title `undefined`. -/
theorem c3_executor_validation (d : Doc) (params : Json)
    (hnc : params.getField "new_content" = none)
    (ht : params.getField "text" = none) :
    (executeTool "edit_first_paragraph" params d
      = { success := false, newHtml := none,
          message := "No content provided to edit - please specify what to write" })
    ∧ (executeTool "edit_last_paragraph" params d
      = { success := false, newHtml := none,
          message := "No content provided to edit - please specify what to write" })
    ∧ (executeTool "edit_paragraph" params d
      = { success := false, newHtml := none,
          message := "No content provided to edit - please specify what to write" })
    ∧ (executeTool "append_text" params d
      = { success := false, newHtml := none, message := "No text provided to append" })
    ∧ (executeTool "prepend_text" params d
      = { success := false, newHtml := none, message := "No text provided to prepend" })
    ∧ (executeTool "replace_all" params d
      = { success := false, newHtml := none,
          message := "No content provided to replace document" })
    ∧ (params.getField "title" = none → params.getField "summary" = none →
        executeTool "add_title" params d
          = { success := true, newHtml := some ("<h1>undefined</h1>" ++ serializeDoc d),
              message := "Added title: \"undefined\"" }) := by
  refine ⟨?_, ?_, ?_, ?_, ?_, ?_, ?_⟩
  · simp [executeTool, hnc, ht, asContentString, jsOrVal, optTruthy]
  · simp [executeTool, hnc, ht, asContentString, jsOrVal, optTruthy]
  · simp [executeTool, hnc, ht, asContentString, jsOrVal, optTruthy]
  · simp [executeTool, ht, asContentString, jsOrVal, optTruthy]
  · simp [executeTool, ht, asContentString, jsOrVal, optTruthy]
  · simp [executeTool, ht, asContentString, jsOrVal, optTruthy]
  · intro htitle hsum
    simp [executeTool, htitle, hsum, messageOr, jsTemplate, addTitle, optTruthy]

/-- Witness for C3 at a concrete input: an empty parameter object. -/
theorem c3_executor_validation_witness :
    ((Json.obj []).getField "new_content" = none)
    ∧ ((Json.obj []).getField "text" = none)
    ∧ (executeTool "edit_first_paragraph" (Json.obj []) [Block.para "x"]
        = { success := false, newHtml := none,
            message := "No content provided to edit - please specify what to write" }) :=
  ⟨rfl, rfl, (c3_executor_validation [Block.para "x"] (Json.obj []) rfl rfl).1⟩

/-- C4 counterexample: a reachable-but-non-2xx response does NOT yield
the `{queries: [userQuery], thought: fallback}` result the claim
requires — the planner returns empty queries and an empty thought. -/
theorem c4_counterexample :
    generateSearchQueries true "solar panels" (FetchOutcome.resp false "")
      = { queries := [], thought := "" }
    ∧ ({ queries := [], thought := "" } : PlanResult) ≠ plannerFallback "solar panels" := by
  exact ⟨rfl, by decide⟩

/-- C4 (amended): the planner fails soft with
`{queries: [userQuery], thought: fallback note}` when the `fetch`
rejects (endpoint unreachable), when the response body fails to parse
as JSON, or when the body's `response` string fails the second JSON
parse; a non-2xx response instead returns `{queries: [], thought: ''}`
without the fallback note.  No failure is propagated in any case. -/
theorem c4_planner_fail_soft (userQuery : String) :
    (generateSearchQueries true userQuery FetchOutcome.netError = plannerFallback userQuery)
    ∧ (∀ body : String, jsonParse body = none →
        generateSearchQueries true userQuery (FetchOutcome.resp true body)
          = plannerFallback userQuery)
    ∧ (∀ (body inner : String) (data : Json), jsonParse body = some data →
        data.getField "response" = some (Json.str inner) → jsonParse inner = none →
        generateSearchQueries true userQuery (FetchOutcome.resp true body)
          = plannerFallback userQuery)
    ∧ (∀ body : String,
        generateSearchQueries true userQuery (FetchOutcome.resp false body)
          = { queries := [], thought := "" }) := by
  refine ⟨rfl, ?_, ?_, ?_⟩
  · intro body hb
    simp [generateSearchQueries, hb]
  · intro body inner data hb hresp hinner
    simp [generateSearchQueries, hb, hresp, hinner]
  · intro body
    rfl

/-- Witness for C4 at a concrete input: a body that is not JSON. -/
theorem c4_planner_fail_soft_witness :
    (jsonParse "nope" = none)
    ∧ generateSearchQueries true "q" (FetchOutcome.resp true "nope") = plannerFallback "q" :=
  ⟨rfl, (c4_planner_fail_soft "q").2.1 "nope" rfl⟩

/-- The failing input for the chunker claim: 250 letters, one space,
then 850 letters — 1101 characters with the single space at index 250.
Already whitespace-normalized, so `cleanText` is the text itself. -/
def chunkerDivergingText : List Char :=
  List.replicate 250 'a' ++ ' ' :: List.replicate 850 'b'

/-- The same failing input as a `String`. -/
def chunkerDivergingInput : String := String.mk chunkerDivergingText

set_option maxRecDepth 400000

/-- With the default parameters (`chunkSize = 1000`, `overlap = 200`)
the loop state `start = 50` is a fixed point on the failing input:
`end` is pulled back to the last space (index 250, which is `> start`
but `≤ start + overlap`), so `start' = 250 - 200 = 50` again, and the
`start >= end` guard never fires.  Hence the loop never finishes, for
any fuel. -/
theorem chunkLoop_stuck_at_50 :
    ∀ (fuel idx : Nat),
      chunkLoop chunkerDivergingText "doc" 1000 200 fuel 50 idx = none := by
  intro fuel
  induction fuel with
  | zero => intro idx; rfl
  | succ f ih =>
    intro idx
    have hstep : chunkLoop chunkerDivergingText "doc" 1000 200 (f + 1) 50 idx
        = (chunkLoop chunkerDivergingText "doc" 1000 200 f 50 (idx + 1)).map
            (fun rest =>
              ⟨"", String.mk (trimL (jsSlice chunkerDivergingText 50 250)), "doc", idx⟩ :: rest) :=
      rfl
    rw [hstep, ih (idx + 1)]
    rfl

/-- C6: the chunker claim fails on the code — `chunkText` with the
DEFAULT parameters (`chunkSize = 1000`, `overlap = 200`) does not
terminate on `chunkerDivergingInput`: the first iteration cuts at the
lone space (index 250) and sets `start = 50`, after which every
iteration recuts at the same space and recomputes `start = 50`; the
`start >= end` advancement guard (which only fires when
`overlap ≥ chunk`) never triggers.  Formally: no fuel makes the
embedded loop finish. -/
theorem c6_chunker_divergence :
    ∀ fuel : Nat, chunkTextFuel fuel chunkerDivergingInput "doc" 1000 200 = none := by
  intro fuel
  cases fuel with
  | zero => rfl
  | succ f =>
    have hstep : chunkTextFuel (f + 1) chunkerDivergingInput "doc" 1000 200
        = (chunkLoop chunkerDivergingText "doc" 1000 200 f 50 1).map
            (fun rest =>
              ⟨"", String.mk (trimL (jsSlice chunkerDivergingText 0 250)), "doc", 0⟩ :: rest) :=
      rfl
    rw [hstep, chunkLoop_stuck_at_50 f 1]
    rfl

/-- Helper: membership in `insertDesc`. -/
theorem mem_insertDesc (x : TextChunk × Nat) :
    ∀ (l : List (TextChunk × Nat)) (z : TextChunk × Nat),
      z ∈ insertDesc x l ↔ z = x ∨ z ∈ l := by
  intro l
  induction l with
  | nil => intro z; simp [insertDesc]
  | cons y ys ih =>
    intro z
    by_cases h : y.2 > x.2
    · simp only [insertDesc, if_pos h, List.mem_cons, ih]
      tauto
    · simp only [insertDesc, if_neg h, List.mem_cons]

/-- Helper: `insertDesc` preserves descending-by-score pairwise order. -/
theorem pairwise_insertDesc (x : TextChunk × Nat) :
    ∀ (l : List (TextChunk × Nat)),
      l.Pairwise (fun a b => b.2 ≤ a.2) →
      (insertDesc x l).Pairwise (fun a b => b.2 ≤ a.2) := by
  intro l
  induction l with
  | nil => intro _; simp [insertDesc]
  | cons y ys ih =>
    intro hp
    rcases List.pairwise_cons.mp hp with ⟨hy, hys⟩
    by_cases h : y.2 > x.2
    · simp only [insertDesc, if_pos h]
      refine List.pairwise_cons.mpr ⟨?_, ih hys⟩
      intro z hz
      rcases (mem_insertDesc x ys z).mp hz with rfl | hz'
      · omega
      · exact hy z hz'
    · simp only [insertDesc, if_neg h]
      refine List.pairwise_cons.mpr ⟨?_, hp⟩
      intro z hz
      rcases List.mem_cons.mp hz with rfl | hz'
      · omega
      · exact le_trans (hy z hz') (by omega)

/-- Helper: the stable descending sort is sorted (descending by
score). -/
theorem pairwise_stableSortDesc :
    ∀ l : List (TextChunk × Nat),
      (stableSortDesc l).Pairwise (fun a b => b.2 ≤ a.2) := by
  intro l
  induction l with
  | nil => simp [stableSortDesc]
  | cons x xs ih => exact pairwise_insertDesc x _ ih

/-- Helper: membership in the stable descending sort. -/
theorem mem_stableSortDesc :
    ∀ (l : List (TextChunk × Nat)) (z : TextChunk × Nat),
      z ∈ stableSortDesc l ↔ z ∈ l := by
  intro l
  induction l with
  | nil => intro z; exact Iff.rfl
  | cons x xs ih =>
    intro z
    rw [stableSortDesc, mem_insertDesc, ih]
    exact (List.mem_cons).symm

/-- Helper: counting fold equals filtered length. -/
theorem foldl_count_filter (p : String → Bool) :
    ∀ (l : List String) (n : Nat),
      l.foldl (fun s t => if p t then s + 1 else s) n = n + (l.filter p).length := by
  intro l
  induction l with
  | nil => intro n; simp
  | cons a t ih =>
    intro n
    by_cases h : p a
    · simp [List.foldl_cons, h, ih, List.filter_cons]
      omega
    · simp [List.foldl_cons, h, ih, List.filter_cons]

/-- Helper: `insertDesc` permutes the cons. -/
theorem insertDesc_perm (x : TextChunk × Nat) :
    ∀ l : List (TextChunk × Nat), List.Perm (insertDesc x l) (x :: l) := by
  intro l
  induction l with
  | nil => exact List.Perm.refl _
  | cons y ys ih =>
    by_cases h : y.2 > x.2
    · simp only [insertDesc, if_pos h]
      exact (List.Perm.cons y ih).trans (List.Perm.swap x y ys)
    · simp only [insertDesc, if_neg h]
      exact List.Perm.refl _

/-- Helper: the stable descending sort is a permutation of its
input. -/
theorem stableSortDesc_perm :
    ∀ l : List (TextChunk × Nat), List.Perm (stableSortDesc l) l := by
  intro l
  induction l with
  | nil => exact List.Perm.refl _
  | cons x xs ih =>
    exact (insertDesc_perm x (stableSortDesc xs)).trans (List.Perm.cons x ih)

/-- Helper: inserting `x` with `insertDesc` does not disturb any
equal-score class: for every score `s`, filtering the result at `s`
gives the same list as filtering `x :: l` at `s` (the skipped elements
all have scores strictly above `x`'s). -/
theorem insertDesc_filter_eq (x : TextChunk × Nat) (s : Nat) :
    ∀ l : List (TextChunk × Nat),
      (insertDesc x l).filter (fun p => p.2 == s)
        = (x :: l).filter (fun p => p.2 == s) := by
  intro l
  induction l with
  | nil => rfl
  | cons y ys ih =>
    by_cases h : y.2 > x.2
    · by_cases hx : x.2 = s
      · have hy : ¬(y.2 = s) := by omega
        simp only [insertDesc, if_pos h]
        simp [List.filter_cons, hx, hy, ih]
      · simp only [insertDesc, if_pos h, List.filter_cons, ih]
        by_cases hy : y.2 = s <;> simp [List.filter_cons, hx, hy]
    · simp [insertDesc, h]

/-- Helper: stability of the descending sort, as preservation of every
equal-score class: for each score `s`, the elements of score `s`
appear in the sorted output exactly in their original order.  Together
with `pairwise_stableSortDesc` and `stableSortDesc_perm` this pins the
output down as THE stable descending sort — the result of the
ECMAScript `sort((a, b) => b.score - a.score)`. -/
theorem stableSortDesc_filter_eq (s : Nat) :
    ∀ l : List (TextChunk × Nat),
      (stableSortDesc l).filter (fun p => p.2 == s) = l.filter (fun p => p.2 == s) := by
  intro l
  induction l with
  | nil => rfl
  | cons x xs ih =>
    rw [stableSortDesc, insertDesc_filter_eq]
    simp [List.filter_cons, ih]

/-- C5 counterexample: the keyword score is NOT the occurrence count
the claim describes.  For the query `wolf pack` and a chunk whose text
is `wolf wolf wolf`, the token `wolf` occurs three times, so the
claim's score is 3 (`keywordScoreSpec`, modelled from the spec's
wording), but the code adds one point per token at most
(`text.includes(term)` is a boolean presence test), giving 1. -/
theorem c5_counterexample :
    keywordScore "wolf pack" ⟨"", "wolf wolf wolf", "s", 0⟩ = 1
    ∧ keywordScoreSpec "wolf pack" ⟨"", "wolf wolf wolf", "s", 0⟩ = 3
    ∧ (1 : Nat) ≠ 3 :=
  ⟨rfl, rfl, by decide⟩

/-- C5 (amended): in keyword mode the query is tokenized on whitespace
and tokens of length ≤ 3 are discarded; each chunk's score is the
number of DISTINCT remaining tokens that occur (at least once,
case-insensitively) as substrings of the chunk text — multiplicity is
not counted — plus 5 if the whole query appears verbatim
(case-insensitively); only chunks with score > 0 are kept, stably
sorted descending by score, and at most the top five are returned
(provided the representative-sampling fallback does not replace the
empty result).  "Stably sorted" is proved in full: the returned chunks
are the score-carrying heads of the take-5 of `stableSortDesc` applied
to the scored positive chunks, and `stableSortDesc` is a permutation
that is descending by score (`Pairwise`) and preserves, for every score
value, the original relative order of the chunks attaining it — the
three properties that uniquely characterise the stable ECMAScript
`sort((a, b) => b.score - a.score)`. -/
theorem c5_keyword_scoring (docs : List ContextDocument) (q : String) (force : Bool)
    (hns : keywordFiltered q (allChunksOf docs) ≠ [] ∨ isGeneralQuery q force = false) :
    (∀ c : TextChunk, keywordScore q c
        = ((keywordTerms q).filter (fun t => incl (jsLower c.text) t)).length
          + (if incl (jsLower c.text) (jsLower q) then 5 else 0))
    ∧ (∀ t ∈ keywordTerms q, 3 < t.length)
    ∧ (findRelevantChunksKeyword docs q force).length ≤ 5
    ∧ (∀ c ∈ findRelevantChunksKeyword docs q force, 0 < keywordScore q c)
    ∧ (findRelevantChunksKeyword docs q force).Pairwise
        (fun a b => keywordScore q b ≤ keywordScore q a)
    ∧ (∀ c ∈ findRelevantChunksKeyword docs q force, c ∈ allChunksOf docs)
    ∧ findRelevantChunksKeyword docs q force
        = ((stableSortDesc (((allChunksOf docs).map (fun c => (c, keywordScore q c))).filter
            (fun s => s.2 > 0))).take 5).map (fun s => s.1)
    ∧ List.Perm
        (stableSortDesc (((allChunksOf docs).map (fun c => (c, keywordScore q c))).filter
          (fun s => s.2 > 0)))
        (((allChunksOf docs).map (fun c => (c, keywordScore q c))).filter
          (fun s => s.2 > 0))
    ∧ (∀ sc : Nat,
        (stableSortDesc (((allChunksOf docs).map (fun c => (c, keywordScore q c))).filter
          (fun s => s.2 > 0))).filter (fun p => p.2 == sc)
        = ((((allChunksOf docs).map (fun c => (c, keywordScore q c))).filter
          (fun s => s.2 > 0))).filter (fun p => p.2 == sc)) := by
  have hscore : ∀ c : TextChunk, keywordScore q c
      = ((keywordTerms q).filter (fun t => incl (jsLower c.text) t)).length
        + (if incl (jsLower c.text) (jsLower q) then 5 else 0) := by
    intro c
    simp only [keywordScore]
    rw [foldl_count_filter]
    by_cases h : incl (jsLower c.text) (jsLower q) <;> simp [h]
  have hresult : findRelevantChunksKeyword docs q force
      = keywordFiltered q (allChunksOf docs)
      ∨ findRelevantChunksKeyword docs q force = [] := by
    by_cases hd : docs.isEmpty
    · right; simp [findRelevantChunksKeyword, hd]
    · left
      have hcond' : ¬(keywordFiltered q (allChunksOf docs) = []
          ∧ isGeneralQuery q force = true) := by
        rcases hns with hne | hgen
        · exact fun hc => hne hc.1
        · intro hc
          rw [hgen] at hc
          exact Bool.false_ne_true hc.2
      simp [findRelevantChunksKeyword, hd, hcond']
  have hbridge : findRelevantChunksKeyword docs q force
      = ((stableSortDesc (((allChunksOf docs).map (fun c => (c, keywordScore q c))).filter
          (fun s => s.2 > 0))).take 5).map (fun s => s.1) := by
    by_cases hd : docs.isEmpty
    · have hdn : docs = [] := List.isEmpty_iff.mp hd
      subst hdn
      simp [findRelevantChunksKeyword, allChunksOf, stableSortDesc]
    · have hcond' : ¬(keywordFiltered q (allChunksOf docs) = []
          ∧ isGeneralQuery q force = true) := by
        rcases hns with hne | hgen
        · exact fun hc => hne hc.1
        · intro hc
          rw [hgen] at hc
          exact Bool.false_ne_true hc.2
      have heq : findRelevantChunksKeyword docs q force
          = keywordFiltered q (allChunksOf docs) := by
        simp [findRelevantChunksKeyword, hd, hcond']
      rw [heq]
      rfl
  have hscored : ∀ p ∈ (allChunksOf docs).map (fun c => (c, keywordScore q c)),
      p.2 = keywordScore q p.1 ∧ p.1 ∈ allChunksOf docs := by
    intro p hp
    rcases List.mem_map.mp hp with ⟨c, hc, rfl⟩
    exact ⟨rfl, hc⟩
  have hfilteredFacts : ∀ p ∈ (stableSortDesc
        (((allChunksOf docs).map (fun c => (c, keywordScore q c))).filter
          (fun s => s.2 > 0))).take 5,
      p.2 = keywordScore q p.1 ∧ p.1 ∈ allChunksOf docs ∧ 0 < p.2 := by
    intro p hp
    have hp1 := (List.take_sublist 5 _).subset hp
    have hp2 := (mem_stableSortDesc _ p).mp hp1
    have hp3 := List.of_mem_filter hp2
    have hp4 := List.mem_of_mem_filter hp2
    rcases hscored p hp4 with ⟨he, hm⟩
    refine ⟨he, hm, ?_⟩
    simpa using hp3
  have hpair : ((stableSortDesc
        (((allChunksOf docs).map (fun c => (c, keywordScore q c))).filter
          (fun s => s.2 > 0))).take 5).Pairwise (fun a b => b.2 ≤ a.2) :=
    (pairwise_stableSortDesc _).sublist (List.take_sublist 5 _)
  refine ⟨hscore, ?_, ?_, ?_, ?_, ?_, hbridge, stableSortDesc_perm _,
    fun sc => stableSortDesc_filter_eq sc _⟩
  · intro t ht
    simpa using List.of_mem_filter ht
  · rcases hresult with he | he <;> rw [he]
    · simp [keywordFiltered]
    · simp
  · intro c hc
    rcases hresult with he | he
    · rw [he] at hc
      unfold keywordFiltered at hc
      rcases List.mem_map.mp hc with ⟨p, hp, rfl⟩
      rcases hfilteredFacts p hp with ⟨he2, _, hpos⟩
      omega
    · rw [he] at hc; cases hc
  · rcases hresult with he | he <;> rw [he]
    · unfold keywordFiltered
      rw [List.pairwise_map]
      refine hpair.imp_of_mem ?_
      intro a b ha hb hab
      rcases hfilteredFacts a ha with ⟨ha2, _, _⟩
      rcases hfilteredFacts b hb with ⟨hb2, _, _⟩
      rw [ha2, hb2] at hab
      exact hab
    · simp
  · intro c hc
    rcases hresult with he | he
    · rw [he] at hc
      unfold keywordFiltered at hc
      rcases List.mem_map.mp hc with ⟨p, hp, rfl⟩
      exact (hfilteredFacts p hp).2.1
    · rw [he] at hc; cases hc

/-- One-chunk corpus used by the C5 witness. -/
def c5Docs : List ContextDocument :=
  [{ name := "d", content := "wolf wolf", chunks := [⟨"", "wolf wolf", "d", 0⟩] }]

/-- Witness for C5 at a concrete input: the query `wolf pack` is not
general-intent, and the corpus is one chunk containing `wolf`. -/
theorem c5_keyword_scoring_witness :
    (keywordFiltered "wolf pack" (allChunksOf c5Docs) ≠ []
      ∨ isGeneralQuery "wolf pack" false = false)
    ∧ ((∀ c : TextChunk, keywordScore "wolf pack" c
          = ((keywordTerms "wolf pack").filter (fun t => incl (jsLower c.text) t)).length
            + (if incl (jsLower c.text) (jsLower "wolf pack") then 5 else 0))
      ∧ (∀ t ∈ keywordTerms "wolf pack", 3 < t.length)
      ∧ (findRelevantChunksKeyword c5Docs "wolf pack" false).length ≤ 5
      ∧ (∀ c ∈ findRelevantChunksKeyword c5Docs "wolf pack" false,
          0 < keywordScore "wolf pack" c)
      ∧ (findRelevantChunksKeyword c5Docs "wolf pack" false).Pairwise
          (fun a b => keywordScore "wolf pack" b ≤ keywordScore "wolf pack" a)
      ∧ (∀ c ∈ findRelevantChunksKeyword c5Docs "wolf pack" false,
          c ∈ allChunksOf c5Docs)
      ∧ findRelevantChunksKeyword c5Docs "wolf pack" false
          = ((stableSortDesc (((allChunksOf c5Docs).map
              (fun c => (c, keywordScore "wolf pack" c))).filter
              (fun s => s.2 > 0))).take 5).map (fun s => s.1)
      ∧ List.Perm
          (stableSortDesc (((allChunksOf c5Docs).map
            (fun c => (c, keywordScore "wolf pack" c))).filter
            (fun s => s.2 > 0)))
          (((allChunksOf c5Docs).map
            (fun c => (c, keywordScore "wolf pack" c))).filter
            (fun s => s.2 > 0))
      ∧ (∀ sc : Nat,
          (stableSortDesc (((allChunksOf c5Docs).map
            (fun c => (c, keywordScore "wolf pack" c))).filter
            (fun s => s.2 > 0))).filter (fun p => p.2 == sc)
          = ((((allChunksOf c5Docs).map
            (fun c => (c, keywordScore "wolf pack" c))).filter
            (fun s => s.2 > 0))).filter (fun p => p.2 == sc))) :=
  ⟨Or.inr (by decide), c5_keyword_scoring c5Docs "wolf pack" false (Or.inr (by decide))⟩

/-- Helper: when every visited index is in range, the sampling loop
returns exactly `r` chunks, the `k`-th being the chunk at index
`i + k * step`. -/
theorem sampleLoop_get (all : List TextChunk) (step : Nat) :
    ∀ (r i : Nat), (∀ k, k < r → i + k * step < all.length) →
      (sampleLoop all step i r).length = r
      ∧ (∀ k, k < r → (sampleLoop all step i r)[k]? = all[i + k * step]?) := by
  intro r
  induction r with
  | zero => intro i _; exact ⟨rfl, fun k hk => absurd hk (Nat.not_lt_zero k)⟩
  | succ n ih =>
    intro i h
    have h0 : i < all.length := by
      have := h 0 (Nat.succ_pos n)
      simpa using this
    have hsome : all[i]? = some (all.get ⟨i, h0⟩) := by
      rw [List.getElem?_eq_getElem h0]
      simp
    have hrest : ∀ k, k < n → (i + step) + k * step < all.length := by
      intro k hk
      have := h (k + 1) (by omega)
      have hmul : (k + 1) * step = k * step + step := by ring
      omega
    rcases ih (i + step) hrest with ⟨hlen, hget⟩
    constructor
    · simp [sampleLoop, hsome, hlen]
    · intro k hk
      cases k with
      | zero =>
        simp [sampleLoop, hsome]
      | succ m =>
        have hm : m < n := by omega
        have hthis := hget m hm
        have hmul : i + (m + 1) * step = (i + step) + m * step := by ring
        rw [hmul]
        rw [← hthis]
        simp [sampleLoop, hsome]

/-- C8: when a query is classified general-intent (or samples are
forced) and the keyword-scored/filtered result is empty, retrieval
returns the representative sample: exactly `min 5 totalChunks` chunks,
never an empty set when the corpus has chunks, and — when the corpus
has more than five chunks — the `k`-th returned chunk is the corpus
chunk at index `k * (totalChunks / 5)` (stride `⌊totalChunks / 5⌋`). -/
theorem c8_sampling_fallback (docs : List ContextDocument) (q : String) (force : Bool)
    (hgen : isGeneralQuery q force = true)
    (hfilt : keywordFiltered q (allChunksOf docs) = [])
    (hd : docs ≠ []) :
    findRelevantChunksKeyword docs q force = getRepresentativeSamples docs 5
    ∧ (findRelevantChunksKeyword docs q force).length = min 5 (allChunksOf docs).length
    ∧ (0 < (allChunksOf docs).length → findRelevantChunksKeyword docs q force ≠ [])
    ∧ (5 < (allChunksOf docs).length → ∀ k, k < 5 →
        (findRelevantChunksKeyword docs q force)[k]?
          = (allChunksOf docs)[k * ((allChunksOf docs).length / 5)]?) := by
  have hde : docs.isEmpty = false := by
    cases docs with
    | nil => exact absurd rfl hd
    | cons a t => rfl
  have hres : findRelevantChunksKeyword docs q force = getRepresentativeSamples docs 5 := by
    simp [findRelevantChunksKeyword, hde, hfilt, hgen]
  refine ⟨hres, ?_⟩
  rw [hres]
  by_cases hle : (allChunksOf docs).length ≤ 5
  · have hs : getRepresentativeSamples docs 5 = allChunksOf docs := by
      simp [getRepresentativeSamples, hde, hle]
    rw [hs]
    refine ⟨by omega, ?_, ?_⟩
    · intro hpos
      exact List.ne_nil_of_length_pos hpos
    · intro hgt
      omega
  · have hgt : 5 < (allChunksOf docs).length := by omega
    have hstep1 : 1 ≤ (allChunksOf docs).length / 5 :=
      (Nat.one_le_div_iff (by norm_num)).mpr (by omega)
    have hmul5 : ((allChunksOf docs).length / 5) * 5 ≤ (allChunksOf docs).length :=
      Nat.div_mul_le_self _ 5
    have hbound : ∀ k, k < 5 → 0 + k * ((allChunksOf docs).length / 5)
        < (allChunksOf docs).length := by
      intro k hk
      have hk4 : k ≤ 4 := by omega
      have h1 : k * ((allChunksOf docs).length / 5)
          ≤ 4 * ((allChunksOf docs).length / 5) :=
        Nat.mul_le_mul_right _ hk4
      omega
    have hs : getRepresentativeSamples docs 5
        = sampleLoop (allChunksOf docs) ((allChunksOf docs).length / 5) 0 5 := by
      simp [getRepresentativeSamples, hde, hle]
    rcases sampleLoop_get (allChunksOf docs) ((allChunksOf docs).length / 5) 5 0 hbound
      with ⟨hlen, hget⟩
    rw [hs]
    refine ⟨by omega, ?_, ?_⟩
    · intro _
      apply List.ne_nil_of_length_pos
      omega
    · intro _ k hk
      have := hget k hk
      simpa using this

/-- Seven-chunk corpus used by the C8 witness; no chunk contains any
keyword of the query `summarize this`. -/
def c8Docs : List ContextDocument :=
  [{ name := "d", content := "", chunks :=
      [⟨"", "t0", "d", 0⟩, ⟨"", "t1", "d", 1⟩, ⟨"", "t2", "d", 2⟩,
       ⟨"", "t3", "d", 3⟩, ⟨"", "t4", "d", 4⟩, ⟨"", "t5", "d", 5⟩,
       ⟨"", "t6", "d", 6⟩] }]

/-- Witness for C8 at a concrete input: a general-intent query
(`summarize this`) over a seven-chunk corpus with no keyword hits. -/
theorem c8_sampling_fallback_witness :
    (isGeneralQuery "summarize this" false = true)
    ∧ (keywordFiltered "summarize this" (allChunksOf c8Docs) = [])
    ∧ (c8Docs ≠ [])
    ∧ (findRelevantChunksKeyword c8Docs "summarize this" false
        = getRepresentativeSamples c8Docs 5
      ∧ (findRelevantChunksKeyword c8Docs "summarize this" false).length
          = min 5 (allChunksOf c8Docs).length
      ∧ (0 < (allChunksOf c8Docs).length →
          findRelevantChunksKeyword c8Docs "summarize this" false ≠ [])
      ∧ (5 < (allChunksOf c8Docs).length → ∀ k, k < 5 →
          (findRelevantChunksKeyword c8Docs "summarize this" false)[k]?
            = (allChunksOf c8Docs)[k * ((allChunksOf c8Docs).length / 5)]?)) :=
  ⟨by decide, by decide, by simp [c8Docs],
   c8_sampling_fallback c8Docs "summarize this" false (by decide) (by decide)
     (by simp [c8Docs])⟩

/-!
### Invariant machinery for the read loop

`StepRel s t` collects the growth-only facts the extractor maintains
between any two successive states; `EvOk s evs t` bounds the events
emitted while the state moved from `s` to `t`.
-/

/-- The growth-only relation between an earlier and a later extractor
state. -/
def StepRel (s t : StreamState) : Prop :=
  s.accumulatedThought.length ≤ t.accumulatedThought.length
  ∧ s.accumulatedContent.length ≤ t.accumulatedContent.length
  ∧ (s.detectedTool ≠ "" → t.detectedTool = s.detectedTool)
  ∧ (s.isJsonDetected = true → t.isJsonDetected = true)

theorem StepRel.refl (s : StreamState) : StepRel s s :=
  ⟨le_rfl, le_rfl, fun _ => rfl, fun h => h⟩

theorem StepRel.trans {s t u : StreamState} (h1 : StepRel s t) (h2 : StepRel t u) :
    StepRel s u := by
  refine ⟨le_trans h1.1 h2.1, le_trans h1.2.1 h2.2.1, ?_, fun h => h2.2.2.2 (h1.2.2.2 h)⟩
  intro hs
  have ht := h1.2.2.1 hs
  rw [← ht]
  exact h2.2.2.1 (by rw [ht]; exact hs)

/-- Event-trace soundness between two states: successive thought
lengths never decrease, every event's thought is sandwiched between the
two states' accumulators, and no read-loop event is terminal. -/
def EvOk (s : StreamState) (evs : List Event) (t : StreamState) : Prop :=
  List.Chain' (fun a b => a.thought.length ≤ b.thought.length) evs
  ∧ ∀ e ∈ evs, s.accumulatedThought.length ≤ e.thought.length
      ∧ e.thought.length ≤ t.accumulatedThought.length
      ∧ e.done = false

theorem EvOk.nil {s t : StreamState} : EvOk s [] t :=
  ⟨List.chain'_nil, fun e he => absurd he (List.not_mem_nil e)⟩

theorem EvOk.append {s m t : StreamState} {evs1 evs2 : List Event}
    (h1 : EvOk s evs1 m) (h2 : EvOk m evs2 t)
    (hmt : m.accumulatedThought.length ≤ t.accumulatedThought.length)
    (hsm : s.accumulatedThought.length ≤ m.accumulatedThought.length) :
    EvOk s (evs1 ++ evs2) t := by
  constructor
  · rw [List.chain'_append]
    refine ⟨h1.1, h2.1, ?_⟩
    intro x hx y hy
    have hx' := (h1.2 x (List.mem_of_mem_getLast? hx)).2.1
    have hy' := (h2.2 y (List.mem_of_mem_head? hy)).1
    omega
  · intro e he
    rcases List.mem_append.mp he with h | h
    · rcases h1.2 e h with ⟨a, b, c⟩
      exact ⟨a, le_trans b hmt, c⟩
    · rcases h2.2 e h with ⟨a, b, c⟩
      exact ⟨le_trans hsm a, b, c⟩

/-- `lineContent` only appends to `fullText`. -/
theorem lineContent_fields (st : StreamState) (data : Json) :
    (lineContent st data).accumulatedThought = st.accumulatedThought
    ∧ (lineContent st data).accumulatedContent = st.accumulatedContent
    ∧ (lineContent st data).detectedTool = st.detectedTool
    ∧ (lineContent st data).isJsonDetected = st.isJsonDetected
    ∧ (lineContent st data).lastMessage = st.lastMessage := by
  cases hm : optTruthy (data.getField "message") with
  | none => simp [lineContent, hm]
  | some m =>
    cases hc : optTruthy (m.getField "content") with
    | none => simp [lineContent, hm, hc]
    | some c => simp [lineContent, hm, hc]

/-- `lineThinking` appends to the thought (never truncating) and its
event carries the new accumulator. -/
theorem lineThinking_ok (st : StreamState) (data : Json) :
    StepRel st (lineThinking st data).1
    ∧ EvOk st (lineThinking st data).2 (lineThinking st data).1 := by
  cases hm : optTruthy (data.getField "message") with
  | none =>
    have hred : lineThinking st data = (st, []) := by simp [lineThinking, hm]
    rw [hred]
    exact ⟨StepRel.refl st, EvOk.nil⟩
  | some m =>
    cases hth : optTruthy (m.getField "thinking") with
    | none =>
      have hred : lineThinking st data = (st, []) := by simp [lineThinking, hm, hth]
      rw [hred]
      exact ⟨StepRel.refl st, EvOk.nil⟩
    | some th =>
      have hred : lineThinking st data
          = ({ st with accumulatedThought := st.accumulatedThought ++ th.display },
             [{ action := "none", message := "Thinking...",
                thought := st.accumulatedThought ++ th.display, content := "",
                done := false }]) := by
        simp [lineThinking, hm, hth]
      rw [hred]
      constructor
      · exact ⟨by simp, le_rfl, fun _ => rfl, fun h => h⟩
      · refine ⟨List.chain'_singleton _, ?_⟩
        intro e he
        rcases List.mem_singleton.mp he with rfl
        exact ⟨by simp, le_rfl, rfl⟩

/-- One NDJSON line respects the growth invariants. -/
theorem lineStep_ok (st : StreamState) (l : String) :
    StepRel st (lineStep st l).1 ∧ EvOk st (lineStep st l).2 (lineStep st l).1 := by
  unfold lineStep
  by_cases h : (jsTrim l).isEmpty
  · simp only [h, if_true]
    exact ⟨StepRel.refl st, EvOk.nil⟩
  · simp only [h, if_false]
    cases hp : jsonParse l with
    | none => exact ⟨StepRel.refl st, EvOk.nil⟩
    | some data =>
      rcases lineContent_fields st data with ⟨h1, h2, h3, h4, _⟩
      rcases lineThinking_ok (lineContent st data) data with ⟨hr, he⟩
      constructor
      · refine StepRel.trans ?_ hr
        exact ⟨by rw [h1], by rw [h2], fun hne => by rw [h3], fun hj => by rw [h4]; exact hj⟩
      · refine ⟨he.1, ?_⟩
        intro e hee
        rcases he.2 e hee with ⟨a, b, c⟩
        rw [h1] at a
        exact ⟨a, b, c⟩

/-- The JSON-detection latch only flips the flag to `true`. -/
theorem jsonFlagStep_ok (st : StreamState) :
    StepRel st (jsonFlagStep st)
    ∧ (jsonFlagStep st).accumulatedThought = st.accumulatedThought
    ∧ (jsonFlagStep st).accumulatedContent = st.accumulatedContent
    ∧ (jsonFlagStep st).detectedTool = st.detectedTool := by
  by_cases h : (!st.isJsonDetected ∧
      (startsW (jsTrim st.fullText) "\x7b" ∨ startsW (jsTrim st.fullText) "```json"))
  · have hred : jsonFlagStep st = { st with isJsonDetected := true } := by
      unfold jsonFlagStep
      rw [if_pos h]
    rw [hred]
    exact ⟨⟨le_rfl, le_rfl, fun _ => rfl, fun _ => rfl⟩, rfl, rfl, rfl⟩
  · have hred : jsonFlagStep st = st := by
      unfold jsonFlagStep
      rw [if_neg h]
    rw [hred]
    exact ⟨StepRel.refl st, rfl, rfl, rfl⟩

/-- The think-tag scan adopts a body only when longer. -/
theorem thinkTagStep_ok (st : StreamState) :
    StepRel st (thinkTagStep st).1
    ∧ EvOk st (thinkTagStep st).2 (thinkTagStep st).1
    ∧ (thinkTagStep st).1.accumulatedContent = st.accumulatedContent
    ∧ (thinkTagStep st).1.detectedTool = st.detectedTool
    ∧ (thinkTagStep st).1.isJsonDetected = st.isJsonDetected
    ∧ ∀ e ∈ (thinkTagStep st).2, e.action = "none" := by
  cases hscan : thinkTagScan st.fullText with
  | none =>
    have hred : thinkTagStep st = (st, []) := by
      unfold thinkTagStep
      rw [hscan]
    rw [hred]
    exact ⟨StepRel.refl st, EvOk.nil, rfl, rfl, rfl, by simp⟩
  | some body =>
    by_cases hlong : (jsTrim body).length > st.accumulatedThought.length
    · have hred : thinkTagStep st
          = ({ st with
                accumulatedThought := jsTrim body,
                lastMessage := (if incl st.fullText "</think" ∨ incl st.fullText "</thinking"
                  then "Processing response..." else "Thinking...") },
             [{ action := "none",
                message := (if incl st.fullText "</think" ∨ incl st.fullText "</thinking"
                  then "Processing response..." else "Thinking..."),
                thought := jsTrim body, content := "", done := false }]) := by
        unfold thinkTagStep
        rw [hscan]
        simp only []
        rw [if_pos hlong]
      rw [hred]
      refine ⟨⟨by dsimp only; omega, le_rfl, fun _ => rfl, fun h => h⟩,
        ⟨List.chain'_singleton _, ?_⟩, rfl, rfl, rfl, by simp⟩
      intro e he
      rcases List.mem_singleton.mp he with rfl
      exact ⟨by dsimp only; omega, le_rfl, rfl⟩
    · have hred : thinkTagStep st = (st, []) := by
        unfold thinkTagStep
        rw [hscan]
        simp only []
        rw [if_neg hlong]
      rw [hred]
      exact ⟨StepRel.refl st, EvOk.nil, rfl, rfl, rfl, by simp⟩

/-- The JSON `"thought"` field scan adopts a value only when longer. -/
theorem thoughtFieldStep_ok (st : StreamState) :
    StepRel st (thoughtFieldStep st).1
    ∧ EvOk st (thoughtFieldStep st).2 (thoughtFieldStep st).1
    ∧ (thoughtFieldStep st).1.accumulatedContent = st.accumulatedContent
    ∧ (thoughtFieldStep st).1.detectedTool = st.detectedTool
    ∧ (thoughtFieldStep st).1.isJsonDetected = st.isJsonDetected
    ∧ ∀ e ∈ (thoughtFieldStep st).2, e.action = "none" := by
  cases hscan : thoughtFieldScan st.fullText with
  | none =>
    have hred : thoughtFieldStep st = (st, []) := by
      unfold thoughtFieldStep
      rw [hscan]
    rw [hred]
    exact ⟨StepRel.refl st, EvOk.nil, rfl, rfl, rfl, by simp⟩
  | some rawThought =>
    by_cases hlong : (unescapeJs (String.mk (takeBeforeUnescapedQuote rawThought.toList))).length
        > st.accumulatedThought.length
    · have hred : thoughtFieldStep st
          = ({ st with accumulatedThought :=
                 unescapeJs (String.mk (takeBeforeUnescapedQuote rawThought.toList)) },
             [{ action := "none", message := st.lastMessage,
                thought := unescapeJs (String.mk (takeBeforeUnescapedQuote rawThought.toList)),
                content := "", done := false }]) := by
        unfold thoughtFieldStep
        rw [hscan]
        simp only []
        rw [if_pos hlong]
      rw [hred]
      refine ⟨⟨by dsimp only; omega, le_rfl, fun _ => rfl, fun h => h⟩,
        ⟨List.chain'_singleton _, ?_⟩, rfl, rfl, rfl, by simp⟩
      intro e he
      rcases List.mem_singleton.mp he with rfl
      exact ⟨by dsimp only; omega, le_rfl, rfl⟩
    · have hred : thoughtFieldStep st = (st, []) := by
        unfold thoughtFieldStep
        rw [hscan]
        simp only []
        rw [if_neg hlong]
      rw [hred]
      exact ⟨StepRel.refl st, EvOk.nil, rfl, rfl, rfl, by simp⟩

/-- The tool lock never overwrites a non-empty tool name, and the
flag/accumulators are untouched. -/
theorem toolLockStep_ok (st : StreamState) :
    StepRel st (toolLockStep st)
    ∧ (toolLockStep st).accumulatedThought = st.accumulatedThought
    ∧ (toolLockStep st).accumulatedContent = st.accumulatedContent
    ∧ (toolLockStep st).isJsonDetected = st.isJsonDetected
    ∧ (toolLockStep st).lastMessage = st.lastMessage
    ∧ (toolLockStep st).fullText = st.fullText := by
  by_cases h : st.detectedTool = ""
  · cases hscan : toolScan st.fullText with
    | none =>
      have hred : toolLockStep st = st := by
        unfold toolLockStep
        rw [if_pos h, hscan]
      rw [hred]
      exact ⟨StepRel.refl st, rfl, rfl, rfl, rfl, rfl⟩
    | some t =>
      have hred : toolLockStep st = { st with detectedTool := t } := by
        unfold toolLockStep
        rw [if_pos h, hscan]
      rw [hred]
      exact ⟨⟨le_rfl, le_rfl, fun hne => absurd h hne, fun hj => hj⟩, rfl, rfl, rfl, rfl, rfl⟩
  · have hred : toolLockStep st = st := by
      unfold toolLockStep
      rw [if_neg h]
    rw [hred]
    exact ⟨StepRel.refl st, rfl, rfl, rfl, rfl, rfl⟩

/-- The optimistic content streaming: content only grows, the tool and
thought are untouched, and every emitted event is a `rewrite` preview
carrying the transformed document. -/
theorem contentStep_ok (d : String) (st : StreamState) :
    StepRel st (contentStep d st).1
    ∧ EvOk st (contentStep d st).2 (contentStep d st).1
    ∧ (contentStep d st).1.accumulatedThought = st.accumulatedThought
    ∧ (contentStep d st).1.detectedTool = st.detectedTool
    ∧ (contentStep d st).1.isJsonDetected = st.isJsonDetected
    ∧ ∀ e ∈ (contentStep d st).2,
        e.action = "rewrite"
        ∧ e.content = previewContent d st.detectedTool ((contentStep d st).1.accumulatedContent)
        ∧ (st.detectedTool = "append_text" ∨ st.detectedTool = "replace_all"
            ∨ st.detectedTool = "prepend_text") := by
  by_cases htool : (st.detectedTool = "append_text" ∨ st.detectedTool = "replace_all"
      ∨ st.detectedTool = "prepend_text")
  · cases hscan : contentFieldScan st.fullText with
    | none =>
      have hred : contentStep d st = (st, []) := by
        unfold contentStep
        rw [if_pos htool, hscan]
      rw [hred]
      exact ⟨StepRel.refl st, EvOk.nil, rfl, rfl, rfl, by simp⟩
    | some rawContent =>
      by_cases hlong : (unescapeJs (String.mk (takeBeforeUnescapedQuote rawContent.toList))).length
          > st.accumulatedContent.length
      · have hred : contentStep d st
            = ({ st with
                  accumulatedContent :=
                    unescapeJs (String.mk (takeBeforeUnescapedQuote rawContent.toList)),
                  lastMessage := "Writing..." },
               [{ action := "rewrite", message := "Writing...",
                  thought := st.accumulatedThought,
                  content := previewContent d st.detectedTool
                    (unescapeJs (String.mk (takeBeforeUnescapedQuote rawContent.toList))),
                  done := false }]) := by
          unfold contentStep
          rw [if_pos htool, hscan]
          simp only []
          rw [if_pos hlong]
        rw [hred]
        refine ⟨⟨le_rfl, by dsimp only; omega, fun _ => rfl, fun h => h⟩,
          ⟨List.chain'_singleton _, ?_⟩, rfl, rfl, rfl, ?_⟩
        · intro e he
          rcases List.mem_singleton.mp he with rfl
          exact ⟨le_rfl, le_rfl, rfl⟩
        · intro e he
          rcases List.mem_singleton.mp he with rfl
          exact ⟨rfl, rfl, htool⟩
      · have hred : contentStep d st = (st, []) := by
          unfold contentStep
          rw [if_pos htool, hscan]
          simp only []
          rw [if_neg hlong]
        rw [hred]
        exact ⟨StepRel.refl st, EvOk.nil, rfl, rfl, rfl, by simp⟩
  · have hred : contentStep d st = (st, []) := by
      unfold contentStep
      rw [if_neg htool]
    rw [hred]
    exact ⟨StepRel.refl st, EvOk.nil, rfl, rfl, rfl, by simp⟩

/-- The pre-JSON status heuristic: only `lastMessage` changes, and the
single event repeats the current thought. -/
theorem statusStep_ok (st : StreamState) :
    StepRel st (statusStep st).1
    ∧ EvOk st (statusStep st).2 (statusStep st).1
    ∧ (statusStep st).1.accumulatedThought = st.accumulatedThought
    ∧ (statusStep st).1.accumulatedContent = st.accumulatedContent
    ∧ (statusStep st).1.detectedTool = st.detectedTool
    ∧ (statusStep st).1.isJsonDetected = st.isJsonDetected
    ∧ ∀ e ∈ (statusStep st).2, e.action = "none" := by
  refine ⟨⟨le_rfl, le_rfl, fun _ => rfl, fun h => h⟩,
    ⟨List.chain'_singleton _, ?_⟩, rfl, rfl, rfl, rfl, ?_⟩
  · intro e he
    rcases List.mem_singleton.mp he with rfl
    exact ⟨le_rfl, le_rfl, rfl⟩
  · intro e he
    rcases List.mem_singleton.mp he with rfl
    rfl

/-- Weakening the endpoints of `EvOk`. -/
theorem EvOk.mono {s s' t t' : StreamState} {evs : List Event} (h : EvOk s evs t)
    (hs : s'.accumulatedThought.length ≤ s.accumulatedThought.length)
    (ht : t.accumulatedThought.length ≤ t'.accumulatedThought.length) :
    EvOk s' evs t' := by
  refine ⟨h.1, ?_⟩
  intro e he
  rcases h.2 e he with ⟨a, b, c⟩
  exact ⟨le_trans hs a, le_trans b ht, c⟩

/-- Line-loop events carry the `none` action. -/
theorem lineStep_action (st : StreamState) (l : String) :
    ∀ e ∈ (lineStep st l).2, e.action = "none" := by
  unfold lineStep
  by_cases h : (jsTrim l).isEmpty
  · simp [h]
  · simp only [h, if_false]
    cases hp : jsonParse l with
    | none => simp
    | some data =>
      unfold lineThinking
      cases hm : optTruthy (data.getField "message") with
      | none => simp [hm]
      | some m =>
        cases hth : optTruthy (m.getField "thinking") with
        | none => simp [hm, hth]
        | some th =>
          simp only [hm, hth]
          intro e he
          rcases List.mem_singleton.mp he with rfl
          rfl

/-- Unrolling `lineSteps` with an arbitrary event accumulator. -/
theorem lineSteps_acc : ∀ (ls : List String) (s : StreamState) (evs : List Event),
    ls.foldl (fun acc l =>
        let r := lineStep acc.1 l
        (r.1, acc.2 ++ r.2)) (s, evs)
      = ((lineSteps s ls).1, evs ++ (lineSteps s ls).2) := by
  intro ls
  induction ls with
  | nil => intro s evs; simp [lineSteps]
  | cons l ls ih =>
    intro s evs
    have h1 : lineSteps s (l :: ls)
        = ((lineSteps (lineStep s l).1 ls).1,
           (lineStep s l).2 ++ (lineSteps (lineStep s l).1 ls).2) := by
      unfold lineSteps
      rw [List.foldl_cons]
      simp only [List.nil_append]
      exact ih (lineStep s l).1 (lineStep s l).2
    rw [List.foldl_cons]
    simp only []
    rw [ih (lineStep s l).1 (evs ++ (lineStep s l).2), h1]
    simp

/-- The line loop respects the growth invariants and emits `none`
actions only. -/
theorem lineSteps_ok : ∀ (ls : List String) (st : StreamState),
    StepRel st (lineSteps st ls).1
    ∧ EvOk st (lineSteps st ls).2 (lineSteps st ls).1
    ∧ ∀ e ∈ (lineSteps st ls).2, e.action = "none" := by
  intro ls
  induction ls with
  | nil =>
    intro st
    exact ⟨StepRel.refl st, EvOk.nil, by simp [lineSteps]⟩
  | cons l ls ih =>
    intro st
    have hcons : lineSteps st (l :: ls)
        = ((lineSteps (lineStep st l).1 ls).1,
           (lineStep st l).2 ++ (lineSteps (lineStep st l).1 ls).2) := by
      unfold lineSteps
      rw [List.foldl_cons]
      simp only [List.nil_append]
      exact lineSteps_acc ls (lineStep st l).1 (lineStep st l).2
    rcases lineStep_ok st l with ⟨hr1, he1⟩
    rcases ih (lineStep st l).1 with ⟨hr2, he2, ha2⟩
    rw [hcons]
    refine ⟨StepRel.trans hr1 hr2, ?_, ?_⟩
    · exact EvOk.append he1 he2 hr2.1 hr1.1
    · intro e he
      rcases List.mem_append.mp he with h | h
      · exact lineStep_action st l e h
      · exact ha2 e h

/-- The post-line scan respects the growth invariants, and every
`rewrite` event it emits is the live preview of the final accumulated
content under the final locked (content-bearing) tool. -/
theorem postScan_ok (d : String) (st : StreamState) :
    StepRel st (postScan d st).1
    ∧ EvOk st (postScan d st).2 (postScan d st).1
    ∧ ∀ e ∈ (postScan d st).2, e.action = "rewrite" →
        (e.content = previewContent d ((postScan d st).1.detectedTool)
            ((postScan d st).1.accumulatedContent)
          ∧ ((postScan d st).1.detectedTool = "append_text"
              ∨ (postScan d st).1.detectedTool = "replace_all"
              ∨ (postScan d st).1.detectedTool = "prepend_text")) := by
  rcases jsonFlagStep_ok st with ⟨hr0, ht0, _, _⟩
  rcases thinkTagStep_ok (jsonFlagStep st) with ⟨hr1, he1, _, _, _, ha1⟩
  by_cases hjson : (thinkTagStep (jsonFlagStep st)).1.isJsonDetected = true
  · have hred : postScan d st
        = ((contentStep d (toolLockStep (thoughtFieldStep (thinkTagStep (jsonFlagStep st)).1).1)).1,
           (thinkTagStep (jsonFlagStep st)).2
             ++ ((thoughtFieldStep (thinkTagStep (jsonFlagStep st)).1).2
               ++ (contentStep d (toolLockStep
                     (thoughtFieldStep (thinkTagStep (jsonFlagStep st)).1).1)).2)) := by
      unfold postScan
      simp only [hjson, if_true]
      rw [List.append_assoc]
    rcases thoughtFieldStep_ok (thinkTagStep (jsonFlagStep st)).1 with ⟨hr2, he2, _, _, _, ha2⟩
    rcases toolLockStep_ok (thoughtFieldStep (thinkTagStep (jsonFlagStep st)).1).1
      with ⟨hr3, ht3, _, _, _, _⟩
    rcases contentStep_ok d (toolLockStep (thoughtFieldStep (thinkTagStep (jsonFlagStep st)).1).1)
      with ⟨hr4, he4, ht4, htool4, _, hc4⟩
    rw [hred]
    have hrel12 : StepRel st (thinkTagStep (jsonFlagStep st)).1 := StepRel.trans hr0 hr1
    have hrel34 : StepRel (thoughtFieldStep (thinkTagStep (jsonFlagStep st)).1).1
        (contentStep d (toolLockStep (thoughtFieldStep (thinkTagStep (jsonFlagStep st)).1).1)).1 :=
      StepRel.trans hr3 hr4
    refine ⟨StepRel.trans hrel12 (StepRel.trans hr2 hrel34), ?_, ?_⟩
    · have he1' : EvOk st (thinkTagStep (jsonFlagStep st)).2 (thinkTagStep (jsonFlagStep st)).1 :=
        EvOk.mono he1 (le_of_eq (congrArg String.length ht0.symm)) le_rfl
    -- thought length is unchanged through toolLock and contentStep
      have he4' : EvOk (thoughtFieldStep (thinkTagStep (jsonFlagStep st)).1).1
          (contentStep d (toolLockStep (thoughtFieldStep (thinkTagStep (jsonFlagStep st)).1).1)).2
          (contentStep d (toolLockStep (thoughtFieldStep (thinkTagStep (jsonFlagStep st)).1).1)).1 :=
        EvOk.mono he4 (le_of_eq (congrArg String.length ht3.symm)) le_rfl
      have h24 : EvOk (thinkTagStep (jsonFlagStep st)).1
          ((thoughtFieldStep (thinkTagStep (jsonFlagStep st)).1).2
            ++ (contentStep d (toolLockStep
                  (thoughtFieldStep (thinkTagStep (jsonFlagStep st)).1).1)).2)
          (contentStep d (toolLockStep (thoughtFieldStep (thinkTagStep (jsonFlagStep st)).1).1)).1 :=
        EvOk.append he2 he4' hrel34.1 hr2.1
      exact EvOk.append he1' h24 (StepRel.trans hr2 hrel34).1 hrel12.1
    · intro e he hact
      rcases List.mem_append.mp he with h | h
      · exact absurd (ha1 e h) (by rw [hact]; decide)
      rcases List.mem_append.mp h with h | h
      · exact absurd (ha2 e h) (by rw [hact]; decide)
      · rcases hc4 e h with ⟨_, hcont, htool⟩
        rw [← htool4] at htool
        exact ⟨by rw [hcont, htool4], htool⟩
  · have hred : postScan d st
        = ((statusStep (thinkTagStep (jsonFlagStep st)).1).1,
           (thinkTagStep (jsonFlagStep st)).2
             ++ (statusStep (thinkTagStep (jsonFlagStep st)).1).2) := by
      unfold postScan
      simp only [hjson, if_false]
      rfl
    rcases statusStep_ok (thinkTagStep (jsonFlagStep st)).1 with ⟨hr2, he2, _, _, _, _, ha2⟩
    rw [hred]
    have hrel12 : StepRel st (thinkTagStep (jsonFlagStep st)).1 := StepRel.trans hr0 hr1
    refine ⟨StepRel.trans hrel12 hr2, ?_, ?_⟩
    · have he1' : EvOk st (thinkTagStep (jsonFlagStep st)).2 (thinkTagStep (jsonFlagStep st)).1 :=
        EvOk.mono he1 (le_of_eq (congrArg String.length ht0.symm)) le_rfl
      exact EvOk.append he1' he2 hr2.1 hrel12.1
    · intro e he hact
      rcases List.mem_append.mp he with h | h
      · exact absurd (ha1 e h) (by rw [hact]; decide)
      · exact absurd (ha2 e h) (by rw [hact]; decide)

/-- Buffering the partial line touches only `accumulatedRaw`. -/
theorem chunkBuffered_fields (st : StreamState) (c : String) :
    (chunkBuffered st c).accumulatedThought = st.accumulatedThought
    ∧ (chunkBuffered st c).accumulatedContent = st.accumulatedContent
    ∧ (chunkBuffered st c).detectedTool = st.detectedTool
    ∧ (chunkBuffered st c).isJsonDetected = st.isJsonDetected :=
  ⟨rfl, rfl, rfl, rfl⟩

/-- One read-loop iteration respects the growth invariants; every
`rewrite` event it emits is the live preview of the iteration's final
accumulated content under the final locked (content-bearing) tool. -/
theorem processChunk_ok (d : String) (st : StreamState) (c : String) :
    StepRel st (processChunk d st c).1
    ∧ EvOk st (processChunk d st c).2 (processChunk d st c).1
    ∧ ∀ e ∈ (processChunk d st c).2, e.action = "rewrite" →
        (e.content = previewContent d ((processChunk d st c).1.detectedTool)
            ((processChunk d st c).1.accumulatedContent)
          ∧ ((processChunk d st c).1.detectedTool = "append_text"
              ∨ (processChunk d st c).1.detectedTool = "replace_all"
              ∨ (processChunk d st c).1.detectedTool = "prepend_text")) := by
  have hred : processChunk d st c
      = ((postScan d (lineSteps (chunkBuffered st c) (chunkLines st c)).1).1,
         (lineSteps (chunkBuffered st c) (chunkLines st c)).2
           ++ (postScan d (lineSteps (chunkBuffered st c) (chunkLines st c)).1).2) := rfl
  have hrel0 : StepRel st (chunkBuffered st c) :=
    ⟨le_rfl, le_rfl, fun _ => rfl, fun h => h⟩
  rcases lineSteps_ok (chunkLines st c) (chunkBuffered st c) with ⟨hr1, he1, ha1⟩
  rcases postScan_ok d (lineSteps (chunkBuffered st c) (chunkLines st c)).1 with ⟨hr2, he2, hc2⟩
  rw [hred]
  refine ⟨StepRel.trans hrel0 (StepRel.trans hr1 hr2), ?_, ?_⟩
  · have he1' : EvOk st (lineSteps (chunkBuffered st c) (chunkLines st c)).2
        (lineSteps (chunkBuffered st c) (chunkLines st c)).1 :=
      EvOk.mono he1 le_rfl le_rfl
    exact EvOk.append he1' he2 hr2.1 (StepRel.trans hrel0 hr1).1
  · intro e he hact
    rcases List.mem_append.mp he with h | h
    · exact absurd (ha1 e h) (by rw [hact]; decide)
    · exact hc2 e h hact

/-- The state component of the read loop started from an arbitrary
state. -/
def stateFrom (docHtml : String) (s : StreamState) (chunks : List String) : StreamState :=
  chunks.foldl (fun s c => (processChunk docHtml s c).1) s

/-- The events of the read loop started from an arbitrary state. -/
def eventsFrom (docHtml : String) (s : StreamState) (chunks : List String) : List Event :=
  (chunks.foldl (fun acc c =>
    let r := processChunk docHtml acc.1 c
    (r.1, acc.2 ++ r.2)) (s, [])).2

/-- Unrolling the read loop's fold with an arbitrary accumulator. -/
theorem runStream_acc (docHtml : String) : ∀ (chunks : List String) (s : StreamState)
    (evs : List Event),
    chunks.foldl (fun acc c =>
        let r := processChunk docHtml acc.1 c
        (r.1, acc.2 ++ r.2)) (s, evs)
      = (stateFrom docHtml s chunks, evs ++ eventsFrom docHtml s chunks) := by
  intro chunks
  induction chunks with
  | nil => intro s evs; simp [stateFrom, eventsFrom]
  | cons c cs ih =>
    intro s evs
    rw [List.foldl_cons]
    simp only []
    rw [ih (processChunk docHtml s c).1 (evs ++ (processChunk docHtml s c).2)]
    have h1 : stateFrom docHtml s (c :: cs)
        = stateFrom docHtml (processChunk docHtml s c).1 cs := by
      simp [stateFrom]
    have h2 : eventsFrom docHtml s (c :: cs)
        = (processChunk docHtml s c).2
            ++ eventsFrom docHtml (processChunk docHtml s c).1 cs := by
      unfold eventsFrom
      rw [List.foldl_cons]
      simp only [List.nil_append]
      rw [ih (processChunk docHtml s c).1 (processChunk docHtml s c).2]
      rfl
    rw [h1, h2]
    simp

/-- `runStream` in terms of `stateFrom`/`eventsFrom`. -/
theorem runStream_eq (docHtml msg0 : String) (chunks : List String) :
    runStream docHtml msg0 chunks
      = (stateFrom docHtml (initState msg0) chunks,
         eventsFrom docHtml (initState msg0) chunks) := by
  unfold runStream
  rw [runStream_acc]
  simp

/-- The read loop's growth invariants hold from any starting state. -/
theorem stateFrom_rel (docHtml : String) : ∀ (chunks : List String) (s : StreamState),
    StepRel s (stateFrom docHtml s chunks) := by
  intro chunks
  induction chunks with
  | nil => intro s; exact StepRel.refl s
  | cons c cs ih =>
    intro s
    have h1 : stateFrom docHtml s (c :: cs)
        = stateFrom docHtml (processChunk docHtml s c).1 cs := by
      simp [stateFrom]
    rw [h1]
    exact StepRel.trans (processChunk_ok docHtml s c).1 (ih (processChunk docHtml s c).1)

/-- The whole event trace from any starting state is `EvOk`. -/
theorem eventsFrom_ok (docHtml : String) : ∀ (chunks : List String) (s : StreamState),
    EvOk s (eventsFrom docHtml s chunks) (stateFrom docHtml s chunks) := by
  intro chunks
  induction chunks with
  | nil => intro s; exact EvOk.nil
  | cons c cs ih =>
    intro s
    have h1 : stateFrom docHtml s (c :: cs)
        = stateFrom docHtml (processChunk docHtml s c).1 cs := by
      simp [stateFrom]
    have h2 : eventsFrom docHtml s (c :: cs)
        = (processChunk docHtml s c).2
            ++ eventsFrom docHtml (processChunk docHtml s c).1 cs := by
      unfold eventsFrom
      rw [List.foldl_cons]
      simp only [List.nil_append]
      rw [runStream_acc docHtml cs (processChunk docHtml s c).1 (processChunk docHtml s c).2]
      simp [eventsFrom]
    rw [h1, h2]
    rcases processChunk_ok docHtml s c with ⟨hr, he, _⟩
    exact EvOk.append he (ih (processChunk docHtml s c).1)
      (stateFrom_rel docHtml cs (processChunk docHtml s c).1).1 hr.1

/-- Splitting the read loop over appended fragment lists. -/
theorem stateFrom_append (docHtml : String) (s : StreamState) (l1 l2 : List String) :
    stateFrom docHtml s (l1 ++ l2) = stateFrom docHtml (stateFrom docHtml s l1) l2 := by
  simp [stateFrom, List.foldl_append]

/-- `stateAfter` is the state component of the fold. -/
theorem stateAfter_eq (docHtml msg0 : String) (chunks : List String) :
    stateAfter docHtml msg0 chunks = stateFrom docHtml (initState msg0) chunks := by
  unfold stateAfter
  rw [runStream_eq]

/-- C1: extractor monotonicity.  Along any fragment sequence the
lengths of `accumulatedThought` and `accumulatedContent` never
decrease: after more fragments both accumulators are at least as long
(first two conjuncts, for any two prefixes of the stream), and the
`thought` carried by successive emitted events is non-decreasing in
length (third conjunct) — a later larger partial parse supersedes a
smaller one, never the reverse, even across malformed fragments. -/
theorem c1_extractor_monotonicity (docHtml msg0 : String) (chunks : List String)
    (m n : Nat) (h : m ≤ n) :
    (stateAfter docHtml msg0 (chunks.take m)).accumulatedThought.length
      ≤ (stateAfter docHtml msg0 (chunks.take n)).accumulatedThought.length
    ∧ (stateAfter docHtml msg0 (chunks.take m)).accumulatedContent.length
      ≤ (stateAfter docHtml msg0 (chunks.take n)).accumulatedContent.length
    ∧ List.Chain' (fun a b => a.thought.length ≤ b.thought.length)
        (streamEvents docHtml msg0 chunks) := by
  have hsplit : chunks.take n = chunks.take m ++ (chunks.drop m).take (n - m) := by
    have hn : n = m + (n - m) := by omega
    rw [hn, List.take_add, Nat.add_sub_cancel_left]
  have hrel : StepRel (stateAfter docHtml msg0 (chunks.take m))
      (stateAfter docHtml msg0 (chunks.take n)) := by
    rw [stateAfter_eq, stateAfter_eq, hsplit, stateFrom_append]
    exact stateFrom_rel docHtml _ _
  refine ⟨hrel.1, hrel.2.1, ?_⟩
  have hev : streamEvents docHtml msg0 chunks
      = eventsFrom docHtml (initState msg0) chunks := by
    unfold streamEvents
    rw [runStream_eq]
  rw [hev]
  exact (eventsFrom_ok docHtml chunks (initState msg0)).1

/-- Witness for C1 at a concrete two-fragment stream of thinking
deltas. -/
theorem c1_extractor_monotonicity_witness :
    (1 ≤ 2)
    ∧ ((stateAfter "" "Thinking..." ((["\x7b\"message\":\x7b\"thinking\":\"ab\"\x7d\x7d\n",
          "\x7b\"message\":\x7b\"thinking\":\"cd\"\x7d\x7d\n"]).take 1)).accumulatedThought.length
        ≤ (stateAfter "" "Thinking..." ((["\x7b\"message\":\x7b\"thinking\":\"ab\"\x7d\x7d\n",
          "\x7b\"message\":\x7b\"thinking\":\"cd\"\x7d\x7d\n"]).take 2)).accumulatedThought.length
      ∧ (stateAfter "" "Thinking..." ((["\x7b\"message\":\x7b\"thinking\":\"ab\"\x7d\x7d\n",
          "\x7b\"message\":\x7b\"thinking\":\"cd\"\x7d\x7d\n"]).take 1)).accumulatedContent.length
        ≤ (stateAfter "" "Thinking..." ((["\x7b\"message\":\x7b\"thinking\":\"ab\"\x7d\x7d\n",
          "\x7b\"message\":\x7b\"thinking\":\"cd\"\x7d\x7d\n"]).take 2)).accumulatedContent.length
      ∧ List.Chain' (fun a b => a.thought.length ≤ b.thought.length)
          (streamEvents "" "Thinking..." ["\x7b\"message\":\x7b\"thinking\":\"ab\"\x7d\x7d\n",
            "\x7b\"message\":\x7b\"thinking\":\"cd\"\x7d\x7d\n"])) :=
  ⟨by omega,
   c1_extractor_monotonicity "" "Thinking..."
     ["\x7b\"message\":\x7b\"thinking\":\"ab\"\x7d\x7d\n",
      "\x7b\"message\":\x7b\"thinking\":\"cd\"\x7d\x7d\n"] 1 2 (by omega)⟩

/-- The fragment list used by the C2 witness: the first fragment locks
`detectedTool = "append_text"`; the second contains a different
`"tool": "..."` substring inside a content field. -/
def c2Chunks : List String :=
  ["\x7b\"message\":\x7b\"content\":\"\x7b\\\"tool\\\": \\\"append_text\\\", \\\"text\\\": \\\"Hi\\\"\x7d\"\x7d\x7d\n",
   "\x7b\"message\":\x7b\"content\":\" and \\\"tool\\\": \\\"replace_all\\\" appears\"\x7d\x7d\n"]

/-- C2: tool lock and JSON latch, for every pair of nested prefixes of
every stream.  If `detectedTool` is set (to a necessarily non-empty
name) after some prefix, every longer prefix leaves it unchanged — no
later fragment, including one containing a different `"tool":"..."`
substring, can overwrite it; and unconditionally, once `isJsonDetected`
is true after some prefix it is still true after every longer prefix —
it never reverts to false. -/
theorem c2_tool_lock (docHtml msg0 : String) (chunks : List String)
    (m n : Nat) (h : m ≤ n) :
    ((stateAfter docHtml msg0 (chunks.take m)).detectedTool ≠ "" →
      (stateAfter docHtml msg0 (chunks.take n)).detectedTool
        = (stateAfter docHtml msg0 (chunks.take m)).detectedTool)
    ∧ ((stateAfter docHtml msg0 (chunks.take m)).isJsonDetected = true →
        (stateAfter docHtml msg0 (chunks.take n)).isJsonDetected = true) := by
  have hsplit : chunks.take n = chunks.take m ++ (chunks.drop m).take (n - m) := by
    have hn : n = m + (n - m) := by omega
    rw [hn, List.take_add, Nat.add_sub_cancel_left]
  have hrel : StepRel (stateAfter docHtml msg0 (chunks.take m))
      (stateAfter docHtml msg0 (chunks.take n)) := by
    rw [stateAfter_eq, stateAfter_eq, hsplit, stateFrom_append]
    exact stateFrom_rel docHtml _ _
  exact ⟨hrel.2.2.1, hrel.2.2.2⟩

/-- Witness for C2 at a concrete stream, with both conclusions
non-vacuous: the first fragment locks `detectedTool = "append_text"`
and sets `isJsonDetected`, and both survive a second fragment carrying
a different `"tool":"..."` substring. -/
theorem c2_tool_lock_witness :
    (1 ≤ 2)
    ∧ (stateAfter "" "m" (c2Chunks.take 1)).detectedTool = "append_text"
    ∧ (stateAfter "" "m" (c2Chunks.take 1)).isJsonDetected = true
    ∧ (((stateAfter "" "m" (c2Chunks.take 1)).detectedTool ≠ "" →
        (stateAfter "" "m" (c2Chunks.take 2)).detectedTool
          = (stateAfter "" "m" (c2Chunks.take 1)).detectedTool)
      ∧ ((stateAfter "" "m" (c2Chunks.take 1)).isJsonDetected = true →
          (stateAfter "" "m" (c2Chunks.take 2)).isJsonDetected = true)) :=
  ⟨by omega, by decide, by decide, c2_tool_lock "" "m" c2Chunks 1 2 (by omega)⟩

/-- The fragment used by the C9 counterexample (a complete tool call
with `append_text` content `Hi` inside one NDJSON line). -/
def c9Chunk : String :=
  "\x7b\"message\":\x7b\"content\":\"\x7b\\\"tool\\\": \\\"append_text\\\", \\\"text\\\": \\\"Hi\\\"\x7d\"\x7d\x7d\n"

/-- C9 counterexample: with original document `<p>D</p>` and extracted
`append_text` content `Hi`, the emitted live preview is
`<p>D</p>\nHi` — original, a NEWLINE, then the content — which is not
`original ++ content` as the claim states. -/
theorem c9_counterexample :
    streamEvents "<p>D</p>" "m" [c9Chunk]
      = [{ action := "rewrite", message := "Writing...", thought := "",
           content := "<p>D</p>\nHi", done := false }]
    ∧ (stateAfter "<p>D</p>" "m" [c9Chunk]).detectedTool = "append_text"
    ∧ (stateAfter "<p>D</p>" "m" [c9Chunk]).accumulatedContent = "Hi"
    ∧ "<p>D</p>\nHi" ≠ "<p>D</p>" ++ "Hi" :=
  ⟨rfl, rfl, rfl, by decide⟩

/-- C9 (amended): whenever a read-loop iteration emits a live-preview
(`rewrite`) event, the locked tool is content-bearing and the emitted
content is the transform with a joining NEWLINE for the concatenating
tools: `original + "\n" + content` for `append_text`,
`content + "\n" + original` for `prepend_text`, and the content alone
for `replace_all`. -/
theorem c9_live_preview_transform (docHtml : String) (st : StreamState) (c : String)
    (e : Event) (he : e ∈ (processChunk docHtml st c).2) (ha : e.action = "rewrite") :
    ((processChunk docHtml st c).1.detectedTool = "append_text"
      ∧ e.content = docHtml ++ "\n" ++ (processChunk docHtml st c).1.accumulatedContent)
    ∨ ((processChunk docHtml st c).1.detectedTool = "prepend_text"
      ∧ e.content = (processChunk docHtml st c).1.accumulatedContent ++ "\n" ++ docHtml)
    ∨ ((processChunk docHtml st c).1.detectedTool = "replace_all"
      ∧ e.content = (processChunk docHtml st c).1.accumulatedContent) := by
  rcases (processChunk_ok docHtml st c).2.2 e he ha with ⟨hcont, htool⟩
  rcases htool with h | h | h
  · left
    refine ⟨h, ?_⟩
    rw [hcont, h]
    rfl
  · right; right
    refine ⟨h, ?_⟩
    rw [hcont, h]
    rfl
  · right; left
    refine ⟨h, ?_⟩
    rw [hcont, h]
    rfl

/-- Witness for C9 at the concrete `append_text` fragment. -/
theorem c9_live_preview_transform_witness :
    ({ action := "rewrite", message := "Writing...", thought := "",
       content := "<p>D</p>\nHi", done := false } : Event)
        ∈ (processChunk "<p>D</p>" (initState "m") c9Chunk).2
    ∧ (((processChunk "<p>D</p>" (initState "m") c9Chunk).1.detectedTool = "append_text"
        ∧ ({ action := "rewrite", message := "Writing...", thought := "",
             content := "<p>D</p>\nHi", done := false } : Event).content
          = "<p>D</p>" ++ "\n" ++ (processChunk "<p>D</p>" (initState "m") c9Chunk).1.accumulatedContent)
      ∨ (((processChunk "<p>D</p>" (initState "m") c9Chunk).1.detectedTool = "prepend_text"
        ∧ ({ action := "rewrite", message := "Writing...", thought := "",
             content := "<p>D</p>\nHi", done := false } : Event).content
          = (processChunk "<p>D</p>" (initState "m") c9Chunk).1.accumulatedContent ++ "\n" ++ "<p>D</p>"))
      ∨ (((processChunk "<p>D</p>" (initState "m") c9Chunk).1.detectedTool = "replace_all"
        ∧ ({ action := "rewrite", message := "Writing...", thought := "",
             content := "<p>D</p>\nHi", done := false } : Event).content
          = (processChunk "<p>D</p>" (initState "m") c9Chunk).1.accumulatedContent))) :=
  ⟨by decide,
   c9_live_preview_transform "<p>D</p>" (initState "m") c9Chunk _ (by decide) rfl⟩

/-- Every branch of the finalization emits a terminal (`done = true`)
event. -/
theorem finalize_done (doc : Doc) (st : StreamState) : (finalize doc st).done = true := by
  unfold finalize
  dsimp only
  repeat' split
  all_goals rfl

/-- No read-loop event is terminal. -/
theorem streamEvents_not_done (docHtml msg0 : String) (chunks : List String) :
    ∀ e ∈ streamEvents docHtml msg0 chunks, e.done = false := by
  intro e he
  have hev : streamEvents docHtml msg0 chunks
      = eventsFrom docHtml (initState msg0) chunks := by
    unfold streamEvents
    rw [runStream_eq]
  rw [hev] at he
  exact ((eventsFrom_ok docHtml chunks (initState msg0)).2 e he).2.2

/-- A string of length zero is empty. -/
theorem strLength_eq_zero {s : String} (h : s.length = 0) : s = "" := by
  cases s with
  | mk data =>
    cases data with
    | nil => rfl
    | cons c t => simp [String.length] at h

/-- The finalization under a failed end-of-stream parse, as a function
of the final state alone. -/
theorem finalize_parse_fail (doc : Doc) (st : StreamState)
    (hjson : st.isJsonDetected = true)
    (hfail : finalParse (stripFences st.fullText) = none) :
    finalize doc st
      = (if (jsTrim st.fullText).length > 0 then
          { action := "none",
            message := replAll (replAll st.fullText "```json" "") "```" "",
            thought := st.accumulatedThought, content := "", done := true }
        else
          { action := "none", message := "Error parsing AI response. Please try again.",
            thought := st.accumulatedThought, content := "", done := true }) := by
  unfold finalize
  rw [if_pos hjson, hfail]

/-- C7: final-parse fallback.  For a completed stream that detected
JSON but whose end-of-stream parse fails, the terminal event carries no
edit action and no content: if any visible text accumulated it is
surfaced verbatim with the markdown fence markers stripped, otherwise
the fixed could-not-parse message is surfaced; and the full trace
contains exactly one terminal event, the finalization. -/
theorem c7_final_parse_fallback (doc : Doc) (msg0 : String) (chunks : List String)
    (hjson : (stateAfter (serializeDoc doc) msg0 chunks).isJsonDetected = true)
    (hfail : finalParse (stripFences (stateAfter (serializeDoc doc) msg0 chunks).fullText)
      = none) :
    (jsTrim (stateAfter (serializeDoc doc) msg0 chunks).fullText ≠ "" →
      finalize doc (stateAfter (serializeDoc doc) msg0 chunks)
        = { action := "none",
            message := replAll (replAll
              (stateAfter (serializeDoc doc) msg0 chunks).fullText "```json" "") "```" "",
            thought := (stateAfter (serializeDoc doc) msg0 chunks).accumulatedThought,
            content := "", done := true })
    ∧ (jsTrim (stateAfter (serializeDoc doc) msg0 chunks).fullText = "" →
      finalize doc (stateAfter (serializeDoc doc) msg0 chunks)
        = { action := "none", message := "Error parsing AI response. Please try again.",
            thought := (stateAfter (serializeDoc doc) msg0 chunks).accumulatedThought,
            content := "", done := true })
    ∧ (agenticStreamTrace doc msg0 chunks).filter (fun e => e.done)
        = [finalize doc (stateAfter (serializeDoc doc) msg0 chunks)] := by
  refine ⟨?_, ?_, ?_⟩
  · intro hne
    have hpos : (jsTrim (stateAfter (serializeDoc doc) msg0 chunks).fullText).length > 0 := by
      rcases Nat.eq_zero_or_pos
          (jsTrim (stateAfter (serializeDoc doc) msg0 chunks).fullText).length with h0 | h0
      · exact absurd (strLength_eq_zero h0) hne
      · exact h0
    rw [finalize_parse_fail doc _ hjson hfail, if_pos hpos]
  · intro heq
    have hzero : ¬((jsTrim (stateAfter (serializeDoc doc) msg0 chunks).fullText).length > 0) := by
      rw [heq]
      decide
    rw [finalize_parse_fail doc _ hjson hfail, if_neg hzero]
  · unfold agenticStreamTrace
    rw [List.filter_append]
    have h1 : (streamEvents (serializeDoc doc) msg0 chunks).filter (fun e => e.done) = [] := by
      rw [List.filter_eq_nil_iff]
      intro e he
      rw [streamEvents_not_done (serializeDoc doc) msg0 chunks e he]
      decide
    have h2 : ([finalize doc (stateAfter (serializeDoc doc) msg0 chunks)]).filter
        (fun e => e.done) = [finalize doc (stateAfter (serializeDoc doc) msg0 chunks)] := by
      rw [List.filter_cons]
      rw [finalize_done]
      rfl
    rw [h1, h2]
    rfl

/-- The fragment list used by the C7 witness: JSON is detected but the
closing brace never arrives, so the final parse fails with visible
text accumulated. -/
def c7Chunks : List String :=
  ["\x7b\"message\":\x7b\"content\":\"\x7b\\\"tool\\\": \\\"reply\\\"\"\x7d\x7d\n"]

/-- Witness for C7 at a concrete truncated-JSON stream. -/
theorem c7_final_parse_fallback_witness :
    ((stateAfter (serializeDoc [Block.para "D"]) "m" c7Chunks).isJsonDetected = true)
    ∧ ((finalParse (stripFences
        (stateAfter (serializeDoc [Block.para "D"]) "m" c7Chunks).fullText)).isNone = true)
    ∧ ((jsTrim (stateAfter (serializeDoc [Block.para "D"]) "m" c7Chunks).fullText ≠ "" →
        finalize [Block.para "D"] (stateAfter (serializeDoc [Block.para "D"]) "m" c7Chunks)
          = { action := "none",
              message := replAll (replAll
                (stateAfter (serializeDoc [Block.para "D"]) "m" c7Chunks).fullText
                "```json" "") "```" "",
              thought := (stateAfter (serializeDoc [Block.para "D"]) "m"
                c7Chunks).accumulatedThought,
              content := "", done := true })
      ∧ (jsTrim (stateAfter (serializeDoc [Block.para "D"]) "m" c7Chunks).fullText = "" →
        finalize [Block.para "D"] (stateAfter (serializeDoc [Block.para "D"]) "m" c7Chunks)
          = { action := "none", message := "Error parsing AI response. Please try again.",
              thought := (stateAfter (serializeDoc [Block.para "D"]) "m"
                c7Chunks).accumulatedThought,
              content := "", done := true })
      ∧ (agenticStreamTrace [Block.para "D"] "m" c7Chunks).filter (fun e => e.done)
          = [finalize [Block.para "D"] (stateAfter (serializeDoc [Block.para "D"]) "m"
              c7Chunks)]) :=
  ⟨by decide, by decide,
   c7_final_parse_fallback [Block.para "D"] "m" c7Chunks (by decide)
     (Option.isNone_iff_eq_none.mp (by decide))⟩
